import Mathlib

set_option autoImplicit false
set_option maxHeartbeats 1000000
set_option maxRecDepth 10000

/-!
Shallow embedding of `src/src/server.rs`: the mio-based reactor core of a
Raft server.  The reactor owns a slab of connections indexed by `Token`
(token 0 is reserved for the TCP listener), secondary indexes
`peer_tokens` and `client_tokens`, and two timer registries
(`replica_timeouts` and `reconnection_timeouts`).  The mio event loop is
embedded as explicit state: a list of currently armed scheduler timers
(`armed`, pairing the scheduler handle with its `ServerTimeout` identity),
a fresh-handle counter (`nextHandle`), and the set of tokens whose socket
is registered with the multiplexer (`registered`).

External collaborators that are not part of the repository (mio, capnp,
the `Replica`, `Connection` internals from `connection.rs`) are modelled
abstractly; process aborts (`assert!`, `unwrap`, `expect`,
`unimplemented!`) are modelled as `Except.error` carrying a `Panic` tag.
-/

/-- Tokens index the connection slab and key the multiplexer; token 0 is
the listener. -/
abbrev Token := Nat

/-- Scheduler timeout handles (`mio::Timeout`), modelled as freshly drawn
naturals. -/
abbrev Handle := Nat

/-- Numeric wire identity of a peer replica. -/
abbrev ServerId := Nat

/-- Identity of a client, abstracted from its 16-byte representation. -/
abbrev ClientId := Nat

/-- Opaque replica-owned timeout identity (`ReplicaTimeout`); the reactor
uses it only up to equality. -/
abbrev ReplicaTimeout := Nat

/-- Opaque framed message payload. -/
abbrev Msg := Nat

/-- `const LISTENER: Token = Token(0)`. -/
def LISTENER : Token := 0

/-- Capacity of `Slab::new_starting_at(Token(1), 129)`: 129 connection
slots at tokens 1 through 129. -/
def slabCapacity : Nat := 129

/-! ### Association lists

`HashMap` and the slab are embedded as association lists over `Nat` keys;
`alInsert` replaces any previous binding, matching `HashMap::insert`. -/

/-- Lookup in an association list, first binding wins. -/
def alLookup {β : Type} (k : Nat) : List (Nat × β) → Option β
  | [] => none
  | (k', v) :: l => if k' = k then some v else alLookup k l

/-- Remove every binding of key `k`. -/
def alErase {β : Type} (k : Nat) : List (Nat × β) → List (Nat × β)
  | [] => []
  | (k', v) :: l => if k' = k then alErase k l else (k', v) :: alErase k l

/-- Insert, replacing any previous binding of `k`. -/
def alInsert {β : Type} (k : Nat) (v : β) (l : List (Nat × β)) : List (Nat × β) :=
  (k, v) :: alErase k l

@[simp] theorem alLookup_nil {β : Type} (k : Nat) : alLookup (β := β) k [] = none := rfl

@[simp] theorem alLookup_cons {β : Type} (k k' : Nat) (v : β) (l : List (Nat × β)) :
    alLookup k ((k', v) :: l) = if k' = k then some v else alLookup k l := rfl

@[simp] theorem alErase_nil {β : Type} (k : Nat) : alErase (β := β) k [] = [] := rfl

theorem alErase_cons {β : Type} (k k' : Nat) (v : β) (l : List (Nat × β)) :
    alErase k ((k', v) :: l) =
      if k' = k then alErase k l else (k', v) :: alErase k l := rfl

theorem mem_alErase {β : Type} {p : Nat × β} {k : Nat} {l : List (Nat × β)} :
    p ∈ alErase k l ↔ p ∈ l ∧ p.1 ≠ k := by
  induction l with
  | nil => simp
  | cons q l ih =>
    obtain ⟨k', v⟩ := q
    by_cases h : k' = k
    · subst h
      rw [alErase_cons, if_pos rfl, ih]
      constructor
      · rintro ⟨hp, hne⟩
        exact ⟨List.mem_cons_of_mem _ hp, hne⟩
      · rintro ⟨hp, hne⟩
        rcases List.mem_cons.mp hp with h1 | h1
        · exact absurd (by rw [h1]) hne
        · exact ⟨h1, hne⟩
    · rw [alErase_cons, if_neg h]
      simp only [List.mem_cons, ih]
      constructor
      · rintro (hp | ⟨hp, hne⟩)
        · refine ⟨Or.inl hp, ?_⟩
          rw [hp]
          exact h
        · exact ⟨Or.inr hp, hne⟩
      · rintro ⟨hp | hp, hne⟩
        · exact Or.inl hp
        · exact Or.inr ⟨hp, hne⟩

@[simp] theorem alLookup_alErase_self {β : Type} (k : Nat) (l : List (Nat × β)) :
    alLookup k (alErase k l) = none := by
  induction l with
  | nil => rfl
  | cons q l ih =>
    obtain ⟨k', v⟩ := q
    by_cases h : k' = k <;> simp [alErase_cons, h, ih]

theorem alLookup_alErase_ne {β : Type} {k k' : Nat} (h : k' ≠ k) (l : List (Nat × β)) :
    alLookup k' (alErase k l) = alLookup k' l := by
  induction l with
  | nil => rfl
  | cons q l ih =>
    obtain ⟨k1, v⟩ := q
    by_cases h1 : k1 = k
    · subst h1
      have h2 : ¬(k1 = k') := fun hk => h hk.symm
      simp [alErase_cons, h2, ih]
    · by_cases h2 : k1 = k' <;> simp [alErase_cons, h1, h2, h, ih]

@[simp] theorem alLookup_alInsert_self {β : Type} (k : Nat) (v : β) (l : List (Nat × β)) :
    alLookup k (alInsert k v l) = some v := by
  simp [alInsert]

theorem alLookup_alInsert_ne {β : Type} {k k' : Nat} (h : k' ≠ k) (v : β)
    (l : List (Nat × β)) : alLookup k' (alInsert k v l) = alLookup k' l := by
  rw [alInsert, alLookup_cons, if_neg (fun hk => h hk.symm)]
  exact alLookup_alErase_ne h l

theorem alLookup_mem {β : Type} {k : Nat} {v : β} {l : List (Nat × β)}
    (h : alLookup k l = some v) : (k, v) ∈ l := by
  induction l with
  | nil => simp at h
  | cons q l ih =>
    obtain ⟨k', v'⟩ := q
    by_cases h1 : k' = k
    · subst h1
      simp at h
      simp [h]
    · simp [h1] at h
      exact List.mem_cons_of_mem _ (ih h)

theorem alLookup_isSome_of_mem {β : Type} {k : Nat} {v : β} {l : List (Nat × β)}
    (h : (k, v) ∈ l) : (alLookup k l).isSome := by
  induction l with
  | nil => simp at h
  | cons q l ih =>
    obtain ⟨k', v'⟩ := q
    by_cases h1 : k' = k <;> simp [h1]
    rcases List.mem_cons.mp h with h2 | h2
    · exact absurd (congrArg Prod.fst h2) (by simpa using fun hk => h1 hk.symm)
    · exact ih h2

theorem alLookup_of_mem_nodup {β : Type} {k : Nat} {v : β} {l : List (Nat × β)}
    (hn : (l.map (fun p => p.1)).Nodup) (h : (k, v) ∈ l) : alLookup k l = some v := by
  induction l with
  | nil => simp at h
  | cons q l ih =>
    obtain ⟨k', v'⟩ := q
    simp only [List.map_cons, List.nodup_cons] at hn
    rcases List.mem_cons.mp h with h2 | h2
    · obtain ⟨hk, hv⟩ := Prod.mk.injEq .. ▸ h2
      simp [hk, hv]
    · have hne : k' ≠ k := by
        intro he
        exact hn.1 (he ▸ List.mem_map.mpr ⟨(k, v), h2, rfl⟩)
      simp [hne]
      exact ih hn.2 h2

theorem keys_alErase_sublist {β : Type} (k : Nat) (l : List (Nat × β)) :
    ((alErase k l).map (fun p => p.1)).Sublist (l.map (fun p => p.1)) := by
  induction l with
  | nil => simp
  | cons q l ih =>
    obtain ⟨k', v⟩ := q
    by_cases h : k' = k <;> simp [alErase_cons, h]
    · exact ih.trans (List.sublist_cons_self _ _)
    · exact ih

theorem keys_alErase_nodup {β : Type} {k : Nat} {l : List (Nat × β)}
    (h : (l.map (fun p => p.1)).Nodup) : ((alErase k l).map (fun p => p.1)).Nodup :=
  h.sublist (keys_alErase_sublist k l)

theorem keys_alInsert_nodup {β : Type} {k : Nat} (v : β) {l : List (Nat × β)}
    (h : (l.map (fun p => p.1)).Nodup) :
    ((alInsert k v l).map (fun p => p.1)).Nodup := by
  simp only [alInsert, List.map_cons, List.nodup_cons]
  refine ⟨?_, keys_alErase_nodup h⟩
  intro hk
  rcases List.mem_map.mp hk with ⟨p, hp, hp1⟩
  exact (mem_alErase.mp hp).2 hp1

theorem mem_alInsert {β : Type} {p : Nat × β} {k : Nat} {v : β} {l : List (Nat × β)} :
    p ∈ alInsert k v l ↔ p = (k, v) ∨ (p ∈ l ∧ p.1 ≠ k) := by
  simp [alInsert, mem_alErase]

/-! ### Data model -/

/-- `ConnectionKind` from `connection.rs`: classification of a connection. -/
inductive ConnectionKind
  | unknown
  | peer (id : ServerId)
  | client (id : ClientId)
deriving DecidableEq

/-- Modelled from the spec: a `Connection` is a nonblocking framed-message
endpoint with a classification, the assigned `Token`, an outbound frame
queue, and (for peers) a reconnection back-off counter.  The inbound
partial-frame buffer is abstracted away: frames arriving on a readable
event are supplied by the environment. -/
structure Connection where
  kind : ConnectionKind
  token : Token
  outbox : List Msg
  backoff : Nat
deriving DecidableEq

/-- `ServerTimeout` from `server.rs`: the identity attached to every
scheduler timer. -/
inductive ServerTimeout
  | replica (t : ReplicaTimeout)
  | reconnect (tok : Token)
deriving DecidableEq

/-- Decoding outcomes of the first frame on an `Unknown` connection, as
seen by the `match` on `preamble.get_id().which().unwrap()`:
`server id` is `Which::Server(id)`; `client id` is `Which::Client(Ok(b))`
with `ClientId::from_bytes(b)` succeeding; `clientBad` is
`Which::Client(Ok(b))` with `from_bytes` failing; `clientErr` is
`Which::Client(Err(_))` (falls to the wildcard arm); `notInSchema` is
`which()` returning an error. -/
inductive PreambleId
  | server (id : ServerId)
  | client (id : ClientId)
  | clientBad
  | clientErr
  | notInSchema
deriving DecidableEq

/-- A framed message together with what it decodes to when parsed as a
connection preamble. -/
structure Frame where
  pre : PreambleId
  body : Msg
deriving DecidableEq

/-- `Actions` emitted by one replica invocation. -/
structure Actions where
  peer_messages : List (ServerId × Msg)
  client_messages : List (ClientId × Msg)
  timeouts : List ReplicaTimeout
  clear_timeouts : Bool
deriving DecidableEq

/-- The empty `Actions::new()` bundle. -/
def Actions.empty : Actions :=
  { peer_messages := [], client_messages := [], timeouts := [], clear_timeouts := false }

/-- Process aborts: each constructor tags one `assert!`, `unwrap`,
`expect` or `unimplemented!` site of `server.rs`. -/
inductive Panic
  | assertSelfInPeers
  | assertDuplicatePeer
  | slabIndex
  | unwrapPeerToken
  | expectPeerToken
  | expectPeerConnection
  | assertClearTimeout
  | assertReconnectRegistered
  | assertMissingTimeout
  | assertListenerError
  | assertListenerHup
  | assertListenerWritable
  | unwrapReadable
  | unwrapAcceptNone
  | unwrapClientId
  | unimplementedPreamble
  | unwrapWhich
deriving DecidableEq

/-- How a frame was dispatched by the readable drain loop. -/
inductive Dispatch
  | peerMsg (id : ServerId) (f : Frame)
  | clientMsg (id : ClientId) (f : Frame)
  | promotedPeer (id : ServerId)
  | promotedClient (id : ClientId)
deriving DecidableEq

/-- The reactor state: the fields of `struct Server` (minus the external
collaborators `replica` and `listener`) together with the embedded mio
event-loop state (`armed`, `nextHandle`, `registered`). -/
structure Server where
  id : ServerId
  connections : List (Token × Connection)
  peer_tokens : List (ServerId × Token)
  client_tokens : List (ClientId × Token)
  replica_timeouts : List (ReplicaTimeout × Handle)
  reconnection_timeouts : List (Token × Handle)
  armed : List (Handle × ServerTimeout)
  nextHandle : Handle
  registered : List Token
deriving DecidableEq

/-! ### Event loop primitives -/

/-- Register a token with the multiplexer (idempotent). -/
def regAdd (t : Token) (l : List Token) : List Token :=
  if t ∈ l then l else t :: l

/-- Deregister a token from the multiplexer. -/
def regErase (t : Token) (l : List Token) : List Token :=
  l.filter (fun x => x != t)

/-- `EventLoop::clear_timeout`: cancels a scheduler handle, reporting
whether the handle was live.  `none` models the `false` return value. -/
def clearTimeout (h : Handle) (armed : List (Handle × ServerTimeout)) :
    Option (List (Handle × ServerTimeout)) :=
  if armed.any (fun p => p.1 == h) then some (armed.filter (fun p => p.1 != h))
  else none

/-- Modelled from the spec: the content of the preamble frame built by
`messages::server_connection_preamble(id)`. -/
def serverPreambleMsg (id : ServerId) : Msg := id

/-- Modelled from the spec: `Connection::send_message` enqueues a frame on
the outbound queue and ensures the socket is registered for events. -/
def Server.sendTo (s : Server) (t : Token) (c : Connection) (m : Msg) : Server :=
  { s with connections := alInsert t { c with outbox := c.outbox ++ [m] } s.connections,
           registered := regAdd t s.registered }

/-! ### execute_actions -/

/-- First phase of `execute_actions`: for each `(peer, message)`,
`peer_connection` unwraps the `peer_tokens` entry (panicking when the
peer is unknown), indexes the slab (panicking when vacant) and enqueues
the message, discarding any send error. -/
def Server.sendPeerMessages : Server → List (ServerId × Msg) → Except Panic Server
  | s, [] => .ok s
  | s, (pid, m) :: rest =>
    match alLookup pid s.peer_tokens with
    | none => .error .unwrapPeerToken
    | some t =>
      match alLookup t s.connections with
      | none => .error .slabIndex
      | some c => Server.sendPeerMessages (s.sendTo t c m) rest

/-- Second phase: for each `(client, message)`, `client_connection` looks
up `client_tokens` and the slab with `get_mut`; a missing client is
silently skipped. -/
def Server.sendClientMessages : Server → List (ClientId × Msg) → Server
  | s, [] => s
  | s, (cid, m) :: rest =>
    match alLookup cid s.client_tokens with
    | none => Server.sendClientMessages s rest
    | some t =>
      match alLookup t s.connections with
      | none => Server.sendClientMessages s rest
      | some c => Server.sendClientMessages (s.sendTo t c m) rest

/-- Cancel the scheduler handle of every registry entry in order,
asserting each cancellation succeeds. -/
def clearHandles : List (Handle × ServerTimeout) → List (ReplicaTimeout × Handle) →
    Option (List (Handle × ServerTimeout))
  | armed, [] => some armed
  | armed, (_, h) :: rest =>
    match clearTimeout h armed with
    | none => none
    | some armed' => clearHandles armed' rest

/-- The `clear_timeouts` branch of `execute_actions`: every handle in
`replica_timeouts` is cancelled (asserting success) and the registry is
cleared. -/
def Server.clearReplicaTimeouts (s : Server) : Except Panic Server :=
  match clearHandles s.armed s.replica_timeouts with
  | none => .error .assertClearTimeout
  | some armed' => .ok { s with armed := armed', replica_timeouts := [] }

/-- Arm one replica timeout: `timeout_ms` schedules a fresh handle, the
registry `insert` replaces any previous binding, and a displaced handle
is cancelled with `assert!(event_loop.clear_timeout(handle))`. -/
def Server.armReplicaTimeout (s : Server) (rt : ReplicaTimeout) : Except Panic Server :=
  let h := s.nextHandle
  let armed1 := (h, ServerTimeout.replica rt) :: s.armed
  match alLookup rt s.replica_timeouts with
  | none =>
    .ok { s with armed := armed1, nextHandle := h + 1,
                 replica_timeouts := alInsert rt h s.replica_timeouts }
  | some old =>
    match clearTimeout old armed1 with
    | none => .error .assertClearTimeout
    | some armed2 =>
      .ok { s with armed := armed2, nextHandle := h + 1,
                   replica_timeouts := alInsert rt h s.replica_timeouts }

/-- Arm every timeout in the bundle, in order. -/
def Server.armReplicaTimeouts : Server → List ReplicaTimeout → Except Panic Server
  | s, [] => .ok s
  | s, rt :: rest =>
    match s.armReplicaTimeout rt with
    | .error e => .error e
    | .ok s' => Server.armReplicaTimeouts s' rest

/-- `Server::execute_actions`: peer sends, then client sends, then the
optional clear of all replica timeouts, then arming of the requested
timeouts. -/
def Server.execute_actions (s : Server) (a : Actions) : Except Panic Server :=
  match s.sendPeerMessages a.peer_messages with
  | .error e => .error e
  | .ok s1 =>
    let s2 := s1.sendClientMessages a.client_messages
    match (if a.clear_timeouts then s2.clearReplicaTimeouts else .ok s2) with
    | .error e => .error e
    | .ok s3 => Server.armReplicaTimeouts s3 a.timeouts

/-! ### reset_connection -/

/-- `Server::reset_connection`, dispatching on the connection kind.  The
`Peer` arm performs `reset_peer` (modelled from the spec: deregister the
socket, discard the outbound queue, bump the back-off counter, arm a
fresh `Reconnect` timer) and then asserts that no `Reconnect` timer was
already registered for the token. -/
def Server.reset_connection (s : Server) (token : Token) : Except Panic Server :=
  match alLookup token s.connections with
  | none => .error .slabIndex
  | some c =>
    match c.kind with
    | .peer _ =>
      match alLookup token s.reconnection_timeouts with
      | some _ => .error .assertReconnectRegistered
      | none =>
        let h := s.nextHandle
        let c' := { c with outbox := [], backoff := c.backoff + 1 }
        .ok { s with connections := alInsert token c' s.connections,
                     registered := regErase token s.registered,
                     armed := (h, ServerTimeout.reconnect token) :: s.armed,
                     nextHandle := h + 1,
                     reconnection_timeouts := alInsert token h s.reconnection_timeouts }
    | .client cid =>
      .ok { s with connections := alErase token s.connections,
                   client_tokens := alErase cid s.client_tokens }
    | .unknown =>
      .ok { s with connections := alErase token s.connections }

/-- Modelled from the spec: the slab allocates the lowest free token in
the range `1 ..= slabCapacity`; tokens are reused only after explicit
removal.  `none` is a full table. -/
def slabFreeToken (conns : List (Token × Connection)) : Option Token :=
  ((List.range slabCapacity).map (fun i => i + 1)).find?
    (fun t => (alLookup t conns).isNone)

/-! ### Frame dispatch and the readable drain -/

/-- One iteration of the readable drain loop of `Server::ready`: the slab
is indexed (panicking when vacant), the connection kind is re-read, and
the frame is dispatched.  `acts` is the `Actions` bundle the replica
returns when the frame is applied (`apply_peer_message` or
`apply_client_message`); it is unused on the preamble paths.  The
returned `Dispatch` records how the frame was consumed. -/
def Server.handleFrame (s : Server) (token : Token) (f : Frame) (acts : Actions) :
    Except Panic (Server × Dispatch) :=
  match alLookup token s.connections with
  | none => .error .slabIndex
  | some c =>
    match c.kind with
    | .peer pid =>
      match s.execute_actions acts with
      | .error e => .error e
      | .ok s' => .ok (s', .peerMsg pid f)
    | .client cid =>
      match s.execute_actions acts with
      | .error e => .error e
      | .ok s' => .ok (s', .clientMsg cid f)
    | .unknown =>
      match f.pre with
      | .server pid =>
        let cPeer := { c with kind := ConnectionKind.peer pid }
        let s1 := { s with connections := alInsert token cPeer s.connections }
        match alLookup pid s1.peer_tokens with
        | none => .error .expectPeerToken
        | some prev =>
          let s2 := { s1 with peer_tokens := alInsert pid token s1.peer_tokens }
          match alLookup prev s2.connections with
          | none => .error .expectPeerConnection
          | some _ =>
            let s3 := { s2 with connections := alErase prev s2.connections,
                                registered := regErase prev s2.registered }
            match alLookup prev s3.reconnection_timeouts with
            | none => .ok (s3, .promotedPeer pid)
            | some h =>
              match clearTimeout h s3.armed with
              | none => .error .assertClearTimeout
              | some armed' =>
                .ok ({ s3 with
                        reconnection_timeouts := alErase prev s3.reconnection_timeouts,
                        armed := armed' }, .promotedPeer pid)
      | .client cid =>
        let cClient := { c with kind := ConnectionKind.client cid }
        .ok ({ s with connections := alInsert token cClient s.connections },
             .promotedClient cid)
      | .clientBad => .error .unwrapClientId
      | .clientErr => .error .unimplementedPreamble
      | .notInSchema => .error .unwrapWhich

/-- The readable drain loop: frames are read until `readable` returns
`None` (end of the supplied list with `readErr = false`) or an error
(`readErr = true`, which the reactor unwraps, aborting).  Each `readable`
call indexes the slab first. -/
def Server.drainFrames : Server → Token → List (Frame × Actions) → Bool →
    Except Panic (Server × List Dispatch)
  | s, token, [], readErr =>
    match alLookup token s.connections with
    | none => .error .slabIndex
    | some _ => if readErr then .error .unwrapReadable else .ok (s, [])
  | s, token, (f, a) :: rest, readErr =>
    match alLookup token s.connections with
    | none => .error .slabIndex
    | some _ =>
      match s.handleFrame token f a with
      | .error e => .error e
      | .ok (s', d) =>
        match Server.drainFrames s' token rest readErr with
        | .error e => .error e
        | .ok (s'', ds) => .ok (s'', d :: ds)

/-! ### Accept, ready, timeout -/

/-- Environment outcome of `listener.accept()` on a readable listener. -/
inductive AcceptOut
  | aerr
  | anone
  | asome (registerOk : Bool)
deriving DecidableEq

/-- Environment of one readiness event: the `Interest` mask bits and the
outcomes of the fallible socket operations performed inside the handler. -/
structure ReadyEnv where
  isErr : Bool
  isHup : Bool
  isWritable : Bool
  isReadable : Bool
  writeOk : Bool
  flushed : Nat
  acceptOut : AcceptOut
  reads : List (Frame × Actions)
  readErr : Bool
deriving DecidableEq

/-- The accept path of `Server::ready` on a readable listener token:
errors from `accept` are logged; `Ok(None)` is unwrapped (panic); a full
slab drops the socket with `ConnectionLimitReached` logged; a register
failure is logged with the connection left in the table. -/
def Server.acceptStep (s : Server) (env : ReadyEnv) : Except Panic Server :=
  match env.acceptOut with
  | .aerr => .ok s
  | .anone => .error .unwrapAcceptNone
  | .asome registerOk =>
    match slabFreeToken s.connections with
    | none => .ok s
    | some t =>
      let c : Connection := { kind := .unknown, token := t, outbox := [], backoff := 0 }
      let s' := { s with connections := alInsert t c s.connections }
      if registerOk then .ok { s' with registered := regAdd t s'.registered }
      else .ok s'

/-- `Handler::ready`: error and hangup events assert the token is not the
listener and reset the connection; a writable event flushes the outbound
queue (resetting and returning on failure); a readable event accepts (on
the listener) or drains frames. -/
def Server.ready (s : Server) (token : Token) (env : ReadyEnv) : Except Panic Server :=
  if env.isErr then
    if token = LISTENER then .error .assertListenerError
    else s.reset_connection token
  else if env.isHup then
    if token = LISTENER then .error .assertListenerHup
    else s.reset_connection token
  else
    match (if env.isWritable then
             if token = LISTENER then Except.error Panic.assertListenerWritable
             else
               match alLookup token s.connections with
               | none => Except.error Panic.slabIndex
               | some c =>
                 if env.writeOk then
                   let cFlushed := { c with outbox := c.outbox.drop env.flushed }
                   Except.ok (Sum.inr
                     { s with connections := alInsert token cFlushed s.connections })
                 else
                   match s.reset_connection token with
                   | .error e => Except.error e
                   | .ok s' => Except.ok (Sum.inl s')
           else Except.ok (Sum.inr s) : Except Panic (Sum Server Server)) with
    | .error e => .error e
    | .ok (Sum.inl s') => .ok s'
    | .ok (Sum.inr s1) =>
      if env.isReadable then
        if token = LISTENER then s1.acceptStep env
        else
          match s1.drainFrames token env.reads env.readErr with
          | .error e => .error e
          | .ok (s2, _) => .ok s2
      else .ok s1

/-- `Handler::timeout`: the scheduler consumes the fired handle, the
matching registry entry is removed (asserting presence), and the replica
or the reconnect logic runs.  `reconnectOk` is the outcome of
`Connection::reconnect_peer` (modelled from the spec: fresh connect,
register, enqueue the local preamble); `acts` is the replica response to
`apply_timeout`. -/
def Server.fireTimeout (s0 : Server) (h : Handle) (st : ServerTimeout)
    (reconnectOk : Bool) (acts : Actions) : Except Panic Server :=
  let s := { s0 with armed := s0.armed.filter (fun p => p.1 != h) }
  match st with
  | .replica rt =>
    match alLookup rt s.replica_timeouts with
    | none => .error .assertMissingTimeout
    | some _ =>
      Server.execute_actions
        { s with replica_timeouts := alErase rt s.replica_timeouts } acts
  | .reconnect token =>
    match alLookup token s.reconnection_timeouts with
    | none => .error .assertMissingTimeout
    | some _ =>
      let s1 := { s with reconnection_timeouts := alErase token s.reconnection_timeouts }
      match alLookup token s1.connections with
      | none => .error .slabIndex
      | some c =>
        if reconnectOk then
          .ok (s1.sendTo token { c with outbox := [] } (serverPreambleMsg s1.id))
        else .ok s1

/-! ### Construction -/

/-- Environment of one configured peer at startup: whether the outbound
`Connection::peer` construction succeeds, and whether sending the local
preamble succeeds. -/
structure PeerEnv where
  connectOk : Bool
  sendOk : Bool
deriving DecidableEq

/-- Environment of `Server::new`: whether the event loop, the listener
bind and the listener registration succeed. -/
structure NewEnv where
  loopOk : Bool
  bindOk : Bool
  registerOk : Bool
deriving DecidableEq

/-- The `ErrorKind` values surfaced by construction. -/
inductive RaftError
  | connectionLimitReached
  | io
deriving DecidableEq

/-- Outcome of `Server::new`: a constructed server, a returned `Err`, or
a process abort. -/
inductive NewOut
  | ok (s : Server)
  | err (e : RaftError)
  | panic (p : Panic)
deriving DecidableEq

/-- The startup loop over configured peers: construct the outbound
connection, insert it into the slab (`ConnectionLimitReached` when full),
assert the peer id was not already indexed, set the token and enqueue the
local preamble. -/
def Server.newPeers : Server → List (ServerId × PeerEnv) → NewOut
  | s, [] => .ok s
  | s, (pid, pe) :: rest =>
    if pe.connectOk then
      match slabFreeToken s.connections with
      | none => .err .connectionLimitReached
      | some t =>
        match alLookup pid s.peer_tokens with
        | some _ => .panic .assertDuplicatePeer
        | none =>
          if pe.sendOk then
            let c : Connection := { kind := .peer pid, token := t,
                                    outbox := [serverPreambleMsg s.id], backoff := 0 }
            Server.newPeers
              { s with connections := alInsert t c s.connections,
                       peer_tokens := alInsert pid t s.peer_tokens,
                       registered := regAdd t s.registered } rest
          else .err .io
    else .err .io

/-- `Server::new`: assert the peer set does not contain the local id,
create the event loop, bind and register the listener, then insert every
configured peer. -/
def Server.new (id : ServerId) (peers : List (ServerId × PeerEnv)) (env : NewEnv) :
    NewOut :=
  if (peers.map (fun p => p.1)).contains id then .panic .assertSelfInPeers
  else if env.loopOk then
    if env.bindOk then
      if env.registerOk then
        Server.newPeers
          { id := id, connections := [], peer_tokens := [], client_tokens := [],
            replica_timeouts := [], reconnection_timeouts := [], armed := [],
            nextHandle := 0, registered := [LISTENER] } peers
      else .err .io
    else .err .io
  else .err .io

/-! ### Reachability -/

/-- Reachable reactor states: a successful construction, followed by any
interleaving of executed replica `Actions` (covering the
`replica.init()` call in `run`), readiness events, and firings of armed
timers.  The scheduler only fires handles that are currently armed (a
cancelled handle never fires). -/
inductive Reachable : Server → Prop
  | base {id : ServerId} {peers : List (ServerId × PeerEnv)} {env : NewEnv} {s : Server} :
      Server.new id peers env = .ok s → Reachable s
  | exec {s : Server} {a : Actions} {s' : Server} :
      Reachable s → s.execute_actions a = .ok s' → Reachable s'
  | ready {s : Server} {token : Token} {env : ReadyEnv} {s' : Server} :
      Reachable s → s.ready token env = .ok s' → Reachable s'
  | fire {s : Server} {h : Handle} {st : ServerTimeout} {rOk : Bool} {acts : Actions}
      {s' : Server} :
      Reachable s → (h, st) ∈ s.armed → s.fireTimeout h st rOk acts = .ok s' →
      Reachable s'

/-! ### Reactor invariants -/

/-- Keys of an association list are pairwise distinct. -/
def keysNodup {β : Type} (l : List (Nat × β)) : Prop := (l.map (fun p => p.1)).Nodup

/-- Invariants holding in every reachable reactor state: distinct keys in
every table, connection tokens within the slab range, scheduler handles
fresh and distinct, `peer_tokens` entries pointing at Peer connections of
the matching id, and each timer registry in bijection with the armed
scheduler timers of its family. -/
structure WF (s : Server) : Prop where
  connNodup : keysNodup s.connections
  connRange : ∀ p ∈ s.connections, 1 ≤ p.1 ∧ p.1 ≤ slabCapacity
  peerNodup : keysNodup s.peer_tokens
  replicaNodup : keysNodup s.replica_timeouts
  reconNodup : keysNodup s.reconnection_timeouts
  armedNodup : (s.armed.map (fun p => p.1)).Nodup
  armedFresh : ∀ p ∈ s.armed, p.1 < s.nextHandle
  peerConn : ∀ pid t, alLookup pid s.peer_tokens = some t →
      ∃ c, alLookup t s.connections = some c ∧ c.kind = ConnectionKind.peer pid
  replicaArmed : ∀ rt h, alLookup rt s.replica_timeouts = some h ↔
      (h, ServerTimeout.replica rt) ∈ s.armed
  reconArmed : ∀ t h, alLookup t s.reconnection_timeouts = some h ↔
      (h, ServerTimeout.reconnect t) ∈ s.armed

theorem pair_mem_nodup_fst {α β : Type} {l : List (α × β)}
    (h : (l.map (fun p => p.1)).Nodup) {a : α} {b1 b2 : β}
    (h1 : (a, b1) ∈ l) (h2 : (a, b2) ∈ l) : b1 = b2 := by
  induction l with
  | nil => simp at h1
  | cons q l ih =>
    simp only [List.map_cons, List.nodup_cons] at h
    rcases List.mem_cons.mp h1 with e1 | e1 <;> rcases List.mem_cons.mp h2 with e2 | e2
    · rw [← e1] at e2
      exact (Prod.mk.injEq .. ▸ e2.symm).2
    · exact absurd (List.mem_map.mpr ⟨(a, b2), e2, by rw [← e1]⟩) h.1
    · exact absurd (List.mem_map.mpr ⟨(a, b1), e1, by rw [← e2]⟩) h.1
    · exact ih h.2 e1 e2

/-- No two `peer_tokens` entries share a token (claim invariant 5,
derived from invariant 2). -/
theorem WF.peerInj {s : Server} (hWF : WF s) {p q : ServerId} {t : Token}
    (hp : alLookup p s.peer_tokens = some t) (hq : alLookup q s.peer_tokens = some t) :
    p = q := by
  obtain ⟨c1, hc1, hk1⟩ := hWF.peerConn p t hp
  obtain ⟨c2, hc2, hk2⟩ := hWF.peerConn q t hq
  rw [hc1] at hc2
  cases hc2
  rw [hk1] at hk2
  exact (ConnectionKind.peer.injEq .. ▸ hk2)

theorem slabFreeToken_some {conns : List (Token × Connection)} {t : Token}
    (h : slabFreeToken conns = some t) :
    alLookup t conns = none ∧ 1 ≤ t ∧ t ≤ slabCapacity := by
  have hp := List.find?_some h
  have hm := List.mem_of_find?_eq_some h
  refine ⟨Option.isNone_iff_eq_none.mp hp, ?_⟩
  rcases List.mem_map.mp hm with ⟨i, hi, rfl⟩
  rw [List.mem_range] at hi
  exact ⟨Nat.le_add_left 1 i, hi⟩

/-- Updating one connection in place without changing its kind (and
arbitrarily changing the multiplexer registration set) preserves the
invariants. -/
theorem WF.updateConn {s : Server} {t : Token} {c c' : Connection} {reg : List Token}
    (hWF : WF s) (hc : alLookup t s.connections = some c) (hk : c'.kind = c.kind) :
    WF { s with connections := alInsert t c' s.connections, registered := reg } := by
  obtain ⟨h1, h2, h3, h4, h5, h6, h7, h8, h9, h10⟩ := hWF
  refine ⟨keys_alInsert_nodup _ h1, ?_, h3, h4, h5, h6, h7, ?_, h9, h10⟩
  · intro p hp
    rcases mem_alInsert.mp hp with hp | hp
    · subst hp
      exact h2 (t, c) (alLookup_mem hc)
    · exact h2 _ hp.1
  · intro pid tk hpt
    obtain ⟨c0, hc0, hk0⟩ := h8 pid tk hpt
    by_cases he : tk = t
    · subst he
      rw [hc0] at hc
      cases hc
      exact ⟨c', by simp, hk.trans hk0⟩
    · exact ⟨c0, by rw [alLookup_alInsert_ne he, hc0], hk0⟩

theorem WF.sendTo {s : Server} {t : Token} {c : Connection} {m : Msg}
    (hWF : WF s) (hc : alLookup t s.connections = some c) :
    WF (s.sendTo t c m) :=
  hWF.updateConn hc rfl

theorem WF.sendPeerMessages {l : List (ServerId × Msg)} :
    ∀ {s s' : Server}, WF s → Server.sendPeerMessages s l = .ok s' → WF s' := by
  induction l with
  | nil =>
    intro s s' hWF h
    cases h
    exact hWF
  | cons q rest ih =>
    intro s s' hWF h
    obtain ⟨pid, m⟩ := q
    rw [Server.sendPeerMessages] at h
    split at h
    · cases h
    · split at h
      · cases h
      · rename_i t hpt c hc
        exact ih (hWF.sendTo hc) h

theorem WF.sendClientMessages {l : List (ClientId × Msg)} :
    ∀ {s : Server}, WF s → WF (Server.sendClientMessages s l) := by
  induction l with
  | nil =>
    intro s hWF
    exact hWF
  | cons q rest ih =>
    intro s hWF
    obtain ⟨cid, m⟩ := q
    rw [Server.sendClientMessages]
    split
    · exact ih hWF
    · rename_i t hct
      split
      · exact ih hWF
      · rename_i c hc
        exact ih (hWF.sendTo hc)

theorem mem_filterHandle {armed : List (Handle × ServerTimeout)} {h : Handle}
    {p : Handle × ServerTimeout} :
    p ∈ armed.filter (fun q => q.1 != h) ↔ p ∈ armed ∧ p.1 ≠ h := by
  simp [List.mem_filter]

theorem clearTimeout_eq_some {h : Handle} {armed armed' : List (Handle × ServerTimeout)}
    (hc : clearTimeout h armed = some armed') :
    armed' = armed.filter (fun q => q.1 != h) := by
  unfold clearTimeout at hc
  split at hc
  · cases hc
    rfl
  · cases hc

theorem clearHandles_mem {entries : List (ReplicaTimeout × Handle)} :
    ∀ {armed armed' : List (Handle × ServerTimeout)},
      clearHandles armed entries = some armed' →
      ∀ p, p ∈ armed' ↔ p ∈ armed ∧ p.1 ∉ entries.map (fun q => q.2) := by
  induction entries with
  | nil =>
    intro armed armed' h p
    cases h
    simp
  | cons q rest ih =>
    intro armed armed' h p
    obtain ⟨rt, hd⟩ := q
    rw [clearHandles] at h
    cases hct : clearTimeout hd armed with
    | none => rw [hct] at h; cases h
    | some armed1 =>
      rw [hct] at h
      have h1 := clearTimeout_eq_some hct
      subst h1
      rw [ih h p, mem_filterHandle]
      simp only [List.map_cons, List.mem_cons]
      constructor
      · rintro ⟨⟨hp, hne⟩, hrest⟩
        exact ⟨hp, by rintro (he | he) <;> [exact hne he; exact hrest he]⟩
      · rintro ⟨hp, hall⟩
        exact ⟨⟨hp, fun he => hall (Or.inl he)⟩, fun he => hall (Or.inr he)⟩

theorem clearHandles_sublist {entries : List (ReplicaTimeout × Handle)} :
    ∀ {armed armed' : List (Handle × ServerTimeout)},
      clearHandles armed entries = some armed' → armed'.Sublist armed := by
  induction entries with
  | nil =>
    intro armed armed' h
    cases h
    exact List.Sublist.refl _
  | cons q rest ih =>
    intro armed armed' h
    obtain ⟨rt, hd⟩ := q
    rw [clearHandles] at h
    cases hct : clearTimeout hd armed with
    | none => rw [hct] at h; cases h
    | some armed1 =>
      rw [hct] at h
      have h1 := clearTimeout_eq_some hct
      subst h1
      exact (ih h).trans (List.filter_sublist _)

theorem WF.clearReplicaTimeouts {s s' : Server} (hWF : WF s)
    (h : s.clearReplicaTimeouts = .ok s') : WF s' := by
  unfold Server.clearReplicaTimeouts at h
  cases hch : clearHandles s.armed s.replica_timeouts with
  | none => rw [hch] at h; cases h
  | some armed' =>
    rw [hch] at h
    cases h
    have hmem := clearHandles_mem hch
    have hsub := clearHandles_sublist hch
    obtain ⟨h1, h2, h3, h4, h5, h6, h7, h8, h9, h10⟩ := hWF
    refine ⟨h1, h2, h3, by simp [keysNodup], h5, h6.sublist (hsub.map _), ?_, h8, ?_, ?_⟩
    · intro p hp
      exact h7 p (hsub.subset hp)
    · intro rt hd
      simp only [alLookup_nil]
      constructor
      · intro hx
        cases hx
      · intro hx
        obtain ⟨hx1, hx2⟩ := (hmem _).mp hx
        have := alLookup_mem ((h9 rt hd).mpr hx1)
        exact absurd (List.mem_map.mpr ⟨(rt, hd), this, rfl⟩) hx2
    · intro t hd
      rw [h10 t hd]
      constructor
      · intro hx
        refine (hmem _).mpr ⟨hx, ?_⟩
        intro hin
        rcases List.mem_map.mp hin with ⟨⟨rt0, hd0⟩, hq, he⟩
        have h0 : alLookup rt0 s.replica_timeouts = some hd0 := alLookup_of_mem_nodup h4 hq
        have h0' := (h9 rt0 hd0).mp h0
        cases he
        cases pair_mem_nodup_fst h6 hx h0'
      · intro hx
        exact ((hmem _).mp hx).1

theorem WF.armReplicaTimeout {s s' : Server} {rt : ReplicaTimeout} (hWF : WF s)
    (h : s.armReplicaTimeout rt = .ok s') : WF s' := by
  unfold Server.armReplicaTimeout at h
  dsimp only at h
  obtain ⟨h1, h2, h3, h4, h5, h6, h7, h8, h9, h10⟩ := hWF
  have hfreshNe : ∀ p ∈ s.armed, p.1 ≠ s.nextHandle := by
    intro p hp
    exact Nat.ne_of_lt (h7 p hp)
  split at h
  · rename_i hreg
    cases h
    refine ⟨h1, h2, h3, keys_alInsert_nodup _ h4, h5, ?_, ?_, h8, ?_, ?_⟩
    · simp only [List.map_cons, List.nodup_cons]
      refine ⟨?_, h6⟩
      intro hx
      rcases List.mem_map.mp hx with ⟨p, hp, he⟩
      exact hfreshNe p hp he
    · intro p hp
      rcases List.mem_cons.mp hp with he | hp
      · rw [he]
        exact Nat.lt_succ_self _
      · exact Nat.lt_succ_of_lt (h7 p hp)
    · intro rt' hd
      dsimp only
      by_cases he : rt' = rt
      · subst he
        rw [alLookup_alInsert_self]
        constructor
        · rintro ⟨⟩
          exact List.mem_cons_self _ _
        · intro hx
          rcases List.mem_cons.mp hx with hx | hx
          · cases hx
            rfl
          · rw [← h9 rt' hd] at hx
            rw [hreg] at hx
            cases hx
      · rw [alLookup_alInsert_ne he _ _, h9 rt' hd]
        constructor
        · intro hx
          exact List.mem_cons_of_mem _ hx
        · intro hx
          rcases List.mem_cons.mp hx with hx | hx
          · cases hx
            exact absurd rfl he
          · exact hx
    · intro t hd
      dsimp only
      rw [h10 t hd]
      constructor
      · intro hx
        exact List.mem_cons_of_mem _ hx
      · intro hx
        rcases List.mem_cons.mp hx with hx | hx
        · cases hx
        · exact hx
  · rename_i old hreg
    have hold : (old, ServerTimeout.replica rt) ∈ s.armed := (h9 rt old).mp hreg
    have holdLt : old < s.nextHandle := h7 _ hold
    have holdNe : s.nextHandle ≠ old := Nat.ne_of_gt holdLt
    split at h
    · cases h
    · rename_i armed2 hct
      cases h
      have h2eq := clearTimeout_eq_some hct
      have harm2 : armed2 = (s.nextHandle, ServerTimeout.replica rt) ::
          s.armed.filter (fun q => q.1 != old) := by
        rw [h2eq, List.filter_cons_of_pos]
        simpa using holdNe
      subst harm2
      refine ⟨h1, h2, h3, keys_alInsert_nodup _ h4, h5, ?_, ?_, h8, ?_, ?_⟩
      · simp only [List.map_cons, List.nodup_cons]
        constructor
        · intro hx
          rcases List.mem_map.mp hx with ⟨p, hp, he⟩
          exact hfreshNe p (mem_filterHandle.mp hp).1 he
        · exact h6.sublist ((List.filter_sublist _).map _)
      · intro p hp
        rcases List.mem_cons.mp hp with he | hp
        · rw [he]
          exact Nat.lt_succ_self _
        · exact Nat.lt_succ_of_lt (h7 p (mem_filterHandle.mp hp).1)
      · intro rt' hd
        dsimp only
        by_cases he : rt' = rt
        · subst he
          rw [alLookup_alInsert_self]
          constructor
          · rintro ⟨⟩
            exact List.mem_cons_self _ _
          · intro hx
            rcases List.mem_cons.mp hx with hx | hx
            · cases hx
              rfl
            · obtain ⟨hx1, hx2⟩ := mem_filterHandle.mp hx
              have hx3 := (h9 rt' hd).mpr hx1
              rw [hreg] at hx3
              cases hx3
              exact absurd rfl hx2
        · rw [alLookup_alInsert_ne he _ _, h9 rt' hd]
          constructor
          · intro hx
            refine List.mem_cons_of_mem _ (mem_filterHandle.mpr ⟨hx, ?_⟩)
            intro heq
            subst heq
            cases pair_mem_nodup_fst h6 hx hold
            exact he rfl
          · intro hx
            rcases List.mem_cons.mp hx with hx | hx
            · cases hx
              exact absurd rfl he
            · exact (mem_filterHandle.mp hx).1
      · intro t hd
        dsimp only
        rw [h10 t hd]
        constructor
        · intro hx
          refine List.mem_cons_of_mem _ (mem_filterHandle.mpr ⟨hx, ?_⟩)
          intro heq
          subst heq
          cases pair_mem_nodup_fst h6 hx hold
        · intro hx
          rcases List.mem_cons.mp hx with hx | hx
          · cases hx
          · exact (mem_filterHandle.mp hx).1

theorem WF.armReplicaTimeouts {l : List ReplicaTimeout} :
    ∀ {s s' : Server}, WF s → Server.armReplicaTimeouts s l = .ok s' → WF s' := by
  induction l with
  | nil =>
    intro s s' hWF h
    cases h
    exact hWF
  | cons rt rest ih =>
    intro s s' hWF h
    rw [Server.armReplicaTimeouts] at h
    cases harm : s.armReplicaTimeout rt with
    | error e => rw [harm] at h; cases h
    | ok s1 =>
      rw [harm] at h
      exact ih (hWF.armReplicaTimeout harm) h

theorem WF.execute_actions {s s' : Server} {a : Actions} (hWF : WF s)
    (h : s.execute_actions a = .ok s') : WF s' := by
  unfold Server.execute_actions at h
  dsimp only at h
  split at h
  · cases h
  · rename_i s1 hp
    have hWF1 := hWF.sendPeerMessages hp
    have hWF2 : WF (s1.sendClientMessages a.client_messages) := hWF1.sendClientMessages
    split at h
    · cases h
    · rename_i s3 hq
      refine WF.armReplicaTimeouts ?_ h
      split at hq
      · exact hWF2.clearReplicaTimeouts hq
      · cases hq
        exact hWF2

theorem connRange_alInsert {C : List (Token × Connection)} {t : Token} {c' : Connection}
    (hr : ∀ p ∈ C, 1 ≤ p.1 ∧ p.1 ≤ slabCapacity) (ht : 1 ≤ t ∧ t ≤ slabCapacity) :
    ∀ p ∈ alInsert t c' C, 1 ≤ p.1 ∧ p.1 ≤ slabCapacity := by
  intro p hp
  rcases mem_alInsert.mp hp with hp | hp
  · rw [hp]
    exact ht
  · exact hr p hp.1

theorem connRange_alErase {C : List (Token × Connection)} {k : Token}
    (hr : ∀ p ∈ C, 1 ≤ p.1 ∧ p.1 ≤ slabCapacity) :
    ∀ p ∈ alErase k C, 1 ≤ p.1 ∧ p.1 ≤ slabCapacity := by
  intro p hp
  exact hr p (mem_alErase.mp hp).1

theorem WF.reset_connection {s s' : Server} {token : Token} (hWF : WF s)
    (h : s.reset_connection token = .ok s') : WF s' := by
  unfold Server.reset_connection at h
  dsimp only at h
  obtain ⟨h1, h2, h3, h4, h5, h6, h7, h8, h9, h10⟩ := hWF
  split at h
  · cases h
  · rename_i c hc
    have htb : 1 ≤ token ∧ token ≤ slabCapacity := h2 (token, c) (alLookup_mem hc)
    split at h
    · -- Peer: reset_peer, assert no prior Reconnect timer, arm a fresh one
      rename_i pid hkind
      split at h
      · cases h
      · rename_i hnoRec
        cases h
        have hfreshNe : ∀ p ∈ s.armed, p.1 ≠ s.nextHandle := fun p hp =>
          Nat.ne_of_lt (h7 p hp)
        refine ⟨keys_alInsert_nodup _ h1, connRange_alInsert h2 htb, h3, h4,
          keys_alInsert_nodup _ h5, ?_, ?_, ?_, ?_, ?_⟩
        · simp only [List.map_cons, List.nodup_cons]
          refine ⟨?_, h6⟩
          intro hx
          rcases List.mem_map.mp hx with ⟨p, hp, he⟩
          exact hfreshNe p hp he
        · intro p hp
          rcases List.mem_cons.mp hp with he | hp
          · rw [he]
            exact Nat.lt_succ_self _
          · exact Nat.lt_succ_of_lt (h7 p hp)
        · intro q tk hq
          dsimp only
          obtain ⟨c0, hc0, hk0⟩ := h8 q tk hq
          by_cases he : tk = token
          · subst he
            rw [hc0] at hc
            cases hc
            exact ⟨_, alLookup_alInsert_self .., hk0⟩
          · exact ⟨c0, by rw [alLookup_alInsert_ne he, hc0], hk0⟩
        · intro rt hd
          dsimp only
          rw [h9 rt hd]
          constructor
          · intro hx
            exact List.mem_cons_of_mem _ hx
          · intro hx
            rcases List.mem_cons.mp hx with hx | hx
            · cases hx
            · exact hx
        · intro t' hd
          dsimp only
          by_cases he : t' = token
          · subst he
            rw [alLookup_alInsert_self]
            constructor
            · rintro ⟨⟩
              exact List.mem_cons_self _ _
            · intro hx
              rcases List.mem_cons.mp hx with hx | hx
              · cases hx
                rfl
              · rw [← h10 t' hd, hnoRec] at hx
                cases hx
          · rw [alLookup_alInsert_ne he _ _, h10 t' hd]
            constructor
            · intro hx
              exact List.mem_cons_of_mem _ hx
            · intro hx
              rcases List.mem_cons.mp hx with hx | hx
              · cases hx
                exact absurd rfl he
              · exact hx
    · -- Client: remove the connection and the client_tokens entry
      rename_i cid hkind
      cases h
      refine ⟨keys_alErase_nodup h1, connRange_alErase h2, h3, h4, h5, h6, h7, ?_, h9, h10⟩
      intro q tk hq
      dsimp only
      obtain ⟨c0, hc0, hk0⟩ := h8 q tk hq
      have he : tk ≠ token := by
        intro he
        subst he
        rw [hc0] at hc
        cases hc
        rw [hkind] at hk0
        cases hk0
      exact ⟨c0, by rw [alLookup_alErase_ne he, hc0], hk0⟩
    · -- Unknown: remove the connection
      rename_i hkind
      cases h
      refine ⟨keys_alErase_nodup h1, connRange_alErase h2, h3, h4, h5, h6, h7, ?_, h9, h10⟩
      intro q tk hq
      dsimp only
      obtain ⟨c0, hc0, hk0⟩ := h8 q tk hq
      have he : tk ≠ token := by
        intro he
        subst he
        rw [hc0] at hc
        cases hc
        rw [hkind] at hk0
        cases hk0
      exact ⟨c0, by rw [alLookup_alErase_ne he, hc0], hk0⟩

theorem WF.handleFrame {s s' : Server} {token : Token} {f : Frame} {acts : Actions}
    {d : Dispatch} (hWF : WF s) (h : s.handleFrame token f acts = .ok (s', d)) :
    WF s' := by
  unfold Server.handleFrame at h
  dsimp only at h
  split at h
  · cases h
  · rename_i c hc
    split at h
    · rename_i pid hkind
      split at h
      · cases h
      · rename_i s1 hex
        cases h
        exact hWF.execute_actions hex
    · rename_i cid hkind
      split at h
      · cases h
      · rename_i s1 hex
        cases h
        exact hWF.execute_actions hex
    · rename_i hkind
      obtain ⟨h1, h2, h3, h4, h5, h6, h7, h8, h9, h10⟩ := hWF
      have htb : 1 ≤ token ∧ token ≤ slabCapacity := h2 (token, c) (alLookup_mem hc)
      split at h
      · -- Server preamble: promotion
        rename_i pid hpre
        split at h
        · cases h
        · rename_i prev hprev
          obtain ⟨cp, hcp, hkp⟩ := h8 pid prev hprev
          have hPrevTok : prev ≠ token := by
            intro he
            subst he
            rw [hcp] at hc
            cases hc
            rw [hkind] at hkp
            cases hkp
          have hTokPrev : token ≠ prev := fun he => hPrevTok he.symm
          have hPeerConn : ∀ q tk, alLookup q (alInsert pid token s.peer_tokens) = some tk →
              ∃ c0, alLookup tk (alErase prev
                  (alInsert token { c with kind := ConnectionKind.peer pid }
                    s.connections)) = some c0 ∧
                c0.kind = ConnectionKind.peer q := by
            intro q tk hq
            by_cases hq1 : q = pid
            · subst hq1
              rw [alLookup_alInsert_self] at hq
              cases hq
              refine ⟨{ c with kind := ConnectionKind.peer q }, ?_, rfl⟩
              rw [alLookup_alErase_ne hTokPrev, alLookup_alInsert_self]
            · rw [alLookup_alInsert_ne hq1 _ _] at hq
              obtain ⟨c0, hc0, hk0⟩ := h8 q tk hq
              have htk1 : tk ≠ token := by
                intro he
                subst he
                rw [hc0] at hc
                cases hc
                rw [hkind] at hk0
                cases hk0
              have htk2 : tk ≠ prev := by
                intro he
                subst he
                rw [hc0] at hcp
                cases hcp
                rw [hk0] at hkp
                cases hkp
                exact hq1 rfl
              exact ⟨c0, by rw [alLookup_alErase_ne htk2, alLookup_alInsert_ne htk1, hc0],
                hk0⟩
          split at h
          · cases h
          · rename_i cx hcx
            split at h
            · -- no Reconnect timer registered for the previous token
              rename_i hrecNone
              cases h
              exact ⟨keys_alErase_nodup (keys_alInsert_nodup _ h1),
                connRange_alErase (connRange_alInsert h2 htb),
                keys_alInsert_nodup _ h3, h4, h5, h6, h7, hPeerConn, h9, h10⟩
            · -- cancel the Reconnect timer of the previous token
              rename_i hd hrec
              split at h
              · cases h
              · rename_i armed' hct
                cases h
                have harm := clearTimeout_eq_some hct
                subst harm
                have hdmem : (hd, ServerTimeout.reconnect prev) ∈ s.armed :=
                  (h10 prev hd).mp hrec
                refine ⟨keys_alErase_nodup (keys_alInsert_nodup _ h1),
                  connRange_alErase (connRange_alInsert h2 htb),
                  keys_alInsert_nodup _ h3, h4, keys_alErase_nodup h5,
                  h6.sublist ((List.filter_sublist _).map _), ?_, hPeerConn, ?_, ?_⟩
                · intro p hp
                  exact h7 p (mem_filterHandle.mp hp).1
                · intro rt h'
                  dsimp only
                  rw [h9 rt h']
                  constructor
                  · intro hx
                    refine mem_filterHandle.mpr ⟨hx, ?_⟩
                    intro he
                    subst he
                    cases pair_mem_nodup_fst h6 hx hdmem
                  · intro hx
                    exact (mem_filterHandle.mp hx).1
                · intro t' h'
                  dsimp only
                  by_cases he : t' = prev
                  · subst he
                    rw [alLookup_alErase_self]
                    constructor
                    · intro hx
                      cases hx
                    · intro hx
                      obtain ⟨hx1, hx2⟩ := mem_filterHandle.mp hx
                      have hx3 := (h10 t' h').mpr hx1
                      rw [hrec] at hx3
                      cases hx3
                      exact absurd rfl hx2
                  · rw [alLookup_alErase_ne he, h10 t' h']
                    constructor
                    · intro hx
                      refine mem_filterHandle.mpr ⟨hx, ?_⟩
                      intro heq
                      subst heq
                      cases pair_mem_nodup_fst h6 hx hdmem
                      exact he rfl
                    · intro hx
                      exact (mem_filterHandle.mp hx).1
      · -- Client preamble: set the kind, touch no index
        rename_i cid hpre
        cases h
        refine ⟨keys_alInsert_nodup _ h1, connRange_alInsert h2 htb, h3, h4, h5, h6, h7,
          ?_, h9, h10⟩
        intro q tk hq
        dsimp only
        obtain ⟨c0, hc0, hk0⟩ := h8 q tk hq
        have htk : tk ≠ token := by
          intro he
          subst he
          rw [hc0] at hc
          cases hc
          rw [hkind] at hk0
          cases hk0
        exact ⟨c0, by rw [alLookup_alInsert_ne htk, hc0], hk0⟩
      · cases h
      · cases h
      · cases h

theorem WF.drainFrames {frames : List (Frame × Actions)} :
    ∀ {s s' : Server} {token : Token} {ds : List Dispatch} {readErr : Bool}, WF s →
      s.drainFrames token frames readErr = .ok (s', ds) → WF s' := by
  induction frames with
  | nil =>
    intro s s' token ds readErr hWF h
    unfold Server.drainFrames at h
    split at h
    · cases h
    · split at h
      · cases h
      · cases h
        exact hWF
  | cons q rest ih =>
    intro s s' token ds readErr hWF h
    obtain ⟨f, a⟩ := q
    unfold Server.drainFrames at h
    split at h
    · cases h
    · split at h
      · cases h
      · rename_i p hhf
        split at h
        · cases h
        · rename_i p2 hrec
          cases h
          exact ih (hWF.handleFrame hhf) hrec

theorem WF.acceptStep {s s' : Server} {env : ReadyEnv} (hWF : WF s)
    (h : s.acceptStep env = .ok s') : WF s' := by
  unfold Server.acceptStep at h
  dsimp only at h
  split at h
  · cases h
    exact hWF
  · cases h
  · rename_i registerOk
    split at h
    · cases h
      exact hWF
    · rename_i t hfree
      obtain ⟨hfreeNone, htb⟩ := slabFreeToken_some hfree
      obtain ⟨h1, h2, h3, h4, h5, h6, h7, h8, h9, h10⟩ := hWF
      have hPeerConn : ∀ q tk, alLookup q s.peer_tokens = some tk →
          ∃ c0, alLookup tk (alInsert t
              { kind := ConnectionKind.unknown, token := t, outbox := [], backoff := 0 }
              s.connections) = some c0 ∧ c0.kind = ConnectionKind.peer q := by
        intro q tk hq
        obtain ⟨c0, hc0, hk0⟩ := h8 q tk hq
        have htk : tk ≠ t := by
          intro he
          subst he
          rw [hc0] at hfreeNone
          cases hfreeNone
        exact ⟨c0, by rw [alLookup_alInsert_ne htk, hc0], hk0⟩
      split at h <;> cases h <;>
        exact ⟨keys_alInsert_nodup _ h1, connRange_alInsert h2 htb, h3, h4, h5, h6, h7,
          hPeerConn, h9, h10⟩

theorem WF.ready {s s' : Server} {token : Token} {env : ReadyEnv} (hWF : WF s)
    (h : s.ready token env = .ok s') : WF s' := by
  unfold Server.ready at h
  split at h
  · split at h
    · cases h
    · exact hWF.reset_connection h
  · split at h
    · split at h
      · cases h
      · exact hWF.reset_connection h
    · split at h
      · cases h
      · -- early return from a failed writable
        rename_i sA hw
        cases h
        split at hw
        · split at hw
          · cases hw
          · split at hw
            · cases hw
            · rename_i c hc
              split at hw
              · cases hw
              · split at hw
                · cases hw
                · rename_i sB hrst
                  cases hw
                  exact hWF.reset_connection hrst
        · cases hw
      · -- continue into the readable phase
        rename_i s1 hw
        have hWF1 : WF s1 := by
          split at hw
          · split at hw
            · cases hw
            · split at hw
              · cases hw
              · rename_i c hc
                split at hw
                · cases hw
                  exact hWF.updateConn hc rfl
                · split at hw
                  · cases hw
                  · cases hw
          · cases hw
            exact hWF
        split at h
        · split at h
          · exact hWF1.acceptStep h
          · split at h
            · cases h
            · rename_i p hdr
              cases h
              exact hWF1.drainFrames hdr
        · cases h
          exact hWF1

theorem WF.fireTimeout {s s' : Server} {h0 : Handle} {st : ServerTimeout} {rOk : Bool}
    {acts : Actions} (hWF : WF s) (hmem : (h0, st) ∈ s.armed)
    (h : s.fireTimeout h0 st rOk acts = .ok s') : WF s' := by
  unfold Server.fireTimeout at h
  dsimp only at h
  obtain ⟨h1, h2, h3, h4, h5, h6, h7, h8, h9, h10⟩ := hWF
  split at h
  · -- Replica timeout
    rename_i rt
    split at h
    · cases h
    · rename_i hd hreg
      have hWFmid : WF { s with
          armed := s.armed.filter (fun p => p.1 != h0),
          replica_timeouts := alErase rt s.replica_timeouts } := by
        refine ⟨h1, h2, h3, keys_alErase_nodup h4, h5,
          h6.sublist ((List.filter_sublist _).map _), ?_, h8, ?_, ?_⟩
        · intro p hp
          exact h7 p (mem_filterHandle.mp hp).1
        · intro rt' h'
          dsimp only
          by_cases he : rt' = rt
          · subst he
            rw [alLookup_alErase_self]
            constructor
            · intro hx
              cases hx
            · intro hx
              obtain ⟨hx1, hx2⟩ := mem_filterHandle.mp hx
              have hx3 := (h9 rt' h').mpr hx1
              rw [hreg] at hx3
              cases hx3
              have hm0 := (h9 rt' h0).mpr hmem
              rw [hreg] at hm0
              cases hm0
              exact absurd rfl hx2
          · rw [alLookup_alErase_ne he, h9 rt' h']
            constructor
            · intro hx
              refine mem_filterHandle.mpr ⟨hx, ?_⟩
              intro heq
              subst heq
              cases pair_mem_nodup_fst h6 hx hmem
              exact he rfl
            · intro hx
              exact (mem_filterHandle.mp hx).1
        · intro t' h'
          dsimp only
          rw [h10 t' h']
          constructor
          · intro hx
            refine mem_filterHandle.mpr ⟨hx, ?_⟩
            intro heq
            subst heq
            cases pair_mem_nodup_fst h6 hx hmem
          · intro hx
            exact (mem_filterHandle.mp hx).1
      exact hWFmid.execute_actions h
  · -- Reconnect timeout
    rename_i tok
    split at h
    · cases h
    · rename_i hd hreg
      have hWFmid : WF { s with
          armed := s.armed.filter (fun p => p.1 != h0),
          reconnection_timeouts := alErase tok s.reconnection_timeouts } := by
        refine ⟨h1, h2, h3, h4, keys_alErase_nodup h5,
          h6.sublist ((List.filter_sublist _).map _), ?_, h8, ?_, ?_⟩
        · intro p hp
          exact h7 p (mem_filterHandle.mp hp).1
        · intro rt' h'
          dsimp only
          rw [h9 rt' h']
          constructor
          · intro hx
            refine mem_filterHandle.mpr ⟨hx, ?_⟩
            intro heq
            subst heq
            cases pair_mem_nodup_fst h6 hx hmem
          · intro hx
            exact (mem_filterHandle.mp hx).1
        · intro t' h'
          dsimp only
          by_cases he : t' = tok
          · subst he
            rw [alLookup_alErase_self]
            constructor
            · intro hx
              cases hx
            · intro hx
              obtain ⟨hx1, hx2⟩ := mem_filterHandle.mp hx
              have hx3 := (h10 t' h').mpr hx1
              rw [hreg] at hx3
              cases hx3
              have hm0 := (h10 t' h0).mpr hmem
              rw [hreg] at hm0
              cases hm0
              exact absurd rfl hx2
          · rw [alLookup_alErase_ne he, h10 t' h']
            constructor
            · intro hx
              refine mem_filterHandle.mpr ⟨hx, ?_⟩
              intro heq
              subst heq
              cases pair_mem_nodup_fst h6 hx hmem
              exact he rfl
            · intro hx
              exact (mem_filterHandle.mp hx).1
      split at h
      · cases h
      · rename_i c hc
        split at h
        · cases h
          exact hWFmid.updateConn hc rfl
        · cases h
          exact hWFmid

theorem WF.newPeers {peers : List (ServerId × PeerEnv)} :
    ∀ {s s' : Server}, WF s → Server.newPeers s peers = .ok s' → WF s' := by
  induction peers with
  | nil =>
    intro s s' hWF h
    cases h
    exact hWF
  | cons q rest ih =>
    intro s s' hWF h
    obtain ⟨pid, pe⟩ := q
    unfold Server.newPeers at h
    dsimp only at h
    split at h
    · split at h
      · cases h
      · rename_i t hfree
        split at h
        · cases h
        · rename_i hnew
          split at h
          · refine ih ?_ h
            obtain ⟨hfreeNone, htb⟩ := slabFreeToken_some hfree
            obtain ⟨h1, h2, h3, h4, h5, h6, h7, h8, h9, h10⟩ := hWF
            refine ⟨keys_alInsert_nodup _ h1, connRange_alInsert h2 htb,
              keys_alInsert_nodup _ h3, h4, h5, h6, h7, ?_, h9, h10⟩
            intro q tk hq
            dsimp only
            by_cases hq1 : q = pid
            · subst hq1
              rw [alLookup_alInsert_self] at hq
              cases hq
              exact ⟨_, alLookup_alInsert_self .., rfl⟩
            · rw [alLookup_alInsert_ne hq1 _ _] at hq
              obtain ⟨c0, hc0, hk0⟩ := h8 q tk hq
              have htk : tk ≠ t := by
                intro he
                subst he
                rw [hc0] at hfreeNone
                cases hfreeNone
              exact ⟨c0, by rw [alLookup_alInsert_ne htk, hc0], hk0⟩
          · cases h
    · cases h

theorem WF.new {id : ServerId} {peers : List (ServerId × PeerEnv)} {env : NewEnv}
    {s : Server} (h : Server.new id peers env = .ok s) : WF s := by
  unfold Server.new at h
  split at h
  · cases h
  · split at h
    · split at h
      · split at h
        · refine WF.newPeers ?_ h
          refine ⟨?_, ?_, ?_, ?_, ?_, ?_, ?_, ?_, ?_, ?_⟩
          · simp [keysNodup]
          · simp
          · simp [keysNodup]
          · simp [keysNodup]
          · simp [keysNodup]
          · simp
          · simp
          · intro pid t hx
            cases hx
          · intro rt hd
            simp
          · intro t hd
            simp
        · cases h
      · cases h
    · cases h

/-- Every reachable reactor state satisfies the invariants. -/
theorem Reachable.wf {s : Server} (h : Reachable s) : WF s := by
  induction h with
  | base hnew => exact WF.new hnew
  | exec _ hex ih => exact ih.execute_actions hex
  | ready _ hr ih => exact ih.ready hr
  | fire _ hmem hf ih => exact ih.fireTimeout hmem hf

/-! ### Auxiliary characterizations used by the specification theorems -/

theorem not_mem_regErase {t : Token} {l : List Token} : t ∉ regErase t l := by
  simp [regErase, List.mem_filter]

/-- `sendTo` never changes a connection kind. -/
theorem sendTo_kind {s : Server} {t t' : Token} {c c' : Connection} {m : Msg}
    (hc : alLookup t' s.connections = some c')
    (ht : alLookup t s.connections = some c) :
    ∃ c'', alLookup t' (s.sendTo t c m).connections = some c'' ∧ c''.kind = c'.kind := by
  have hconn : (s.sendTo t c m).connections =
      alInsert t { c with outbox := c.outbox ++ [m] } s.connections := rfl
  by_cases he : t' = t
  · subst he
    rw [hc] at ht
    cases ht
    refine ⟨{ c with outbox := c.outbox ++ [m] }, ?_, rfl⟩
    rw [hconn]
    exact alLookup_alInsert_self ..
  · refine ⟨c', ?_, rfl⟩
    rw [hconn, alLookup_alInsert_ne he]
    exact hc

theorem sendPeerMessages_kind {l : List (ServerId × Msg)} :
    ∀ {s s' : Server} {t : Token} {c : Connection},
      alLookup t s.connections = some c → Server.sendPeerMessages s l = .ok s' →
      ∃ c', alLookup t s'.connections = some c' ∧ c'.kind = c.kind := by
  induction l with
  | nil =>
    intro s s' t c hc h
    cases h
    exact ⟨c, hc, rfl⟩
  | cons q rest ih =>
    intro s s' t c hc h
    obtain ⟨pid, m⟩ := q
    rw [Server.sendPeerMessages] at h
    split at h
    · cases h
    · split at h
      · cases h
      · rename_i tk hpt c0 hc0
        obtain ⟨c1, hc1, hk1⟩ := sendTo_kind hc hc0
        obtain ⟨c2, hc2, hk2⟩ := ih hc1 h
        exact ⟨c2, hc2, hk2.trans hk1⟩

theorem sendClientMessages_kind {l : List (ClientId × Msg)} :
    ∀ {s : Server} {t : Token} {c : Connection},
      alLookup t s.connections = some c →
      ∃ c', alLookup t (Server.sendClientMessages s l).connections = some c' ∧
        c'.kind = c.kind := by
  induction l with
  | nil =>
    intro s t c hc
    exact ⟨c, hc, rfl⟩
  | cons q rest ih =>
    intro s t c hc
    obtain ⟨cid, m⟩ := q
    rw [Server.sendClientMessages]
    split
    · exact ih hc
    · rename_i tk hct
      split
      · exact ih hc
      · rename_i c0 hc0
        obtain ⟨c1, hc1, hk1⟩ := sendTo_kind hc hc0
        obtain ⟨c2, hc2, hk2⟩ := ih hc1
        exact ⟨c2, hc2, hk2.trans hk1⟩

theorem clearReplicaTimeouts_connections {s s' : Server}
    (h : s.clearReplicaTimeouts = .ok s') : s'.connections = s.connections := by
  unfold Server.clearReplicaTimeouts at h
  split at h
  · cases h
  · cases h
    rfl

theorem armReplicaTimeout_connections {s s' : Server} {rt : ReplicaTimeout}
    (h : s.armReplicaTimeout rt = .ok s') : s'.connections = s.connections := by
  unfold Server.armReplicaTimeout at h
  dsimp only at h
  split at h
  · cases h
    rfl
  · split at h
    · cases h
    · cases h
      rfl

theorem armReplicaTimeouts_connections {l : List ReplicaTimeout} :
    ∀ {s s' : Server}, Server.armReplicaTimeouts s l = .ok s' →
      s'.connections = s.connections := by
  induction l with
  | nil =>
    intro s s' h
    cases h
    rfl
  | cons rt rest ih =>
    intro s s' h
    rw [Server.armReplicaTimeouts] at h
    split at h
    · cases h
    · rename_i s1 h1
      rw [ih h, armReplicaTimeout_connections h1]

theorem execute_actions_kind {s s' : Server} {a : Actions} {t : Token} {c : Connection}
    (hc : alLookup t s.connections = some c) (h : s.execute_actions a = .ok s') :
    ∃ c', alLookup t s'.connections = some c' ∧ c'.kind = c.kind := by
  unfold Server.execute_actions at h
  dsimp only at h
  split at h
  · cases h
  · rename_i s1 hp
    obtain ⟨c1, hc1, hk1⟩ := sendPeerMessages_kind hc hp
    obtain ⟨c2, hc2, hk2⟩ := sendClientMessages_kind (l := a.client_messages) hc1
    split at h
    · cases h
    · rename_i s3 hq
      have hc3 : alLookup t s3.connections = some c2 := by
        split at hq
        · rw [clearReplicaTimeouts_connections hq]
          exact hc2
        · cases hq
          exact hc2
      obtain ⟨c4, hc4, hk4⟩ : ∃ c4, alLookup t s'.connections = some c4 ∧ c4.kind = c2.kind :=
        ⟨c2, by rw [armReplicaTimeouts_connections h]; exact hc3, rfl⟩
      exact ⟨c4, hc4, (hk4.trans hk2).trans hk1⟩

/-- Dispatch of a frame on an established Peer connection. -/
theorem handleFrame_peer {s s' : Server} {token : Token} {c : Connection} {f : Frame}
    {acts : Actions} {d : Dispatch} {pid : ServerId}
    (hc : alLookup token s.connections = some c)
    (hkind : c.kind = ConnectionKind.peer pid)
    (h : s.handleFrame token f acts = .ok (s', d)) :
    d = Dispatch.peerMsg pid f ∧ s.execute_actions acts = .ok s' := by
  unfold Server.handleFrame at h
  rw [hc] at h
  dsimp only at h
  rw [hkind] at h
  dsimp only at h
  split at h
  · cases h
  · rename_i s1 hex
    cases h
    exact ⟨rfl, hex⟩

/-- Dispatch of a frame on an established Client connection. -/
theorem handleFrame_client {s s' : Server} {token : Token} {c : Connection} {f : Frame}
    {acts : Actions} {d : Dispatch} {cid : ClientId}
    (hc : alLookup token s.connections = some c)
    (hkind : c.kind = ConnectionKind.client cid)
    (h : s.handleFrame token f acts = .ok (s', d)) :
    d = Dispatch.clientMsg cid f ∧ s.execute_actions acts = .ok s' := by
  unfold Server.handleFrame at h
  rw [hc] at h
  dsimp only at h
  rw [hkind] at h
  dsimp only at h
  split at h
  · cases h
  · rename_i s1 hex
    cases h
    exact ⟨rfl, hex⟩

/-- A successful Server-preamble dispatch promotes the connection: the
dispatch is recorded as a promotion and the connection at the token, when
still present, has Peer kind. -/
theorem handleFrame_promote_server {s s' : Server} {token : Token} {c : Connection}
    {f : Frame} {acts : Actions} {d : Dispatch} {pid : ServerId}
    (hc : alLookup token s.connections = some c)
    (hkind : c.kind = ConnectionKind.unknown)
    (hpre : f.pre = PreambleId.server pid)
    (h : s.handleFrame token f acts = .ok (s', d)) :
    d = Dispatch.promotedPeer pid ∧
    ∀ c1, alLookup token s'.connections = some c1 →
      c1.kind = ConnectionKind.peer pid := by
  unfold Server.handleFrame at h
  rw [hc] at h
  dsimp only at h
  rw [hkind] at h
  dsimp only at h
  rw [hpre] at h
  dsimp only at h
  split at h
  · cases h
  · rename_i prev hprev
    split at h
    · cases h
    · rename_i cx hcx
      have hconn : ∀ c1, alLookup token
          (alErase prev (alInsert token { c with kind := ConnectionKind.peer pid }
            s.connections)) = some c1 → c1.kind = ConnectionKind.peer pid := by
        intro c1 hc1
        by_cases he : token = prev
        · rw [he, alLookup_alErase_self] at hc1
          cases hc1
        · rw [alLookup_alErase_ne he, alLookup_alInsert_self] at hc1
          cases hc1
          rfl
      split at h
      · cases h
        exact ⟨rfl, hconn⟩
      · rename_i hd hrec
        split at h
        · cases h
        · cases h
          exact ⟨rfl, hconn⟩

/-- A Client-preamble dispatch sets the Client kind at the same token. -/
theorem handleFrame_promote_client {s s' : Server} {token : Token} {c : Connection}
    {f : Frame} {acts : Actions} {d : Dispatch} {cid : ClientId}
    (hc : alLookup token s.connections = some c)
    (hkind : c.kind = ConnectionKind.unknown)
    (hpre : f.pre = PreambleId.client cid)
    (h : s.handleFrame token f acts = .ok (s', d)) :
    d = Dispatch.promotedClient cid ∧
    alLookup token s'.connections =
      some { c with kind := ConnectionKind.client cid } := by
  unfold Server.handleFrame at h
  rw [hc] at h
  dsimp only at h
  rw [hkind] at h
  dsimp only at h
  rw [hpre] at h
  dsimp only at h
  cases h
  exact ⟨rfl, alLookup_alInsert_self ..⟩

theorem drainFrames_no_conn {s : Server} {token : Token}
    {frames : List (Frame × Actions)} {readErr : Bool}
    (h : alLookup token s.connections = none) :
    s.drainFrames token frames readErr = .error Panic.slabIndex := by
  cases frames with
  | nil =>
    unfold Server.drainFrames
    rw [h]
  | cons q rest =>
    obtain ⟨f, a⟩ := q
    unfold Server.drainFrames
    rw [h]

/-- Characterization of arming one replica timeout in a well-formed
state: the registry binding is replaced by the fresh handle and the armed
set gains the fresh timer, minus any displaced handle. -/
theorem armReplicaTimeout_spec {s s' : Server} {rt : ReplicaTimeout} (hWF : WF s)
    (h : s.armReplicaTimeout rt = .ok s') :
    s'.replica_timeouts = alInsert rt s.nextHandle s.replica_timeouts ∧
    s'.nextHandle = s.nextHandle + 1 ∧
    s'.reconnection_timeouts = s.reconnection_timeouts ∧
    (∃ tail, s'.armed = (s.nextHandle, ServerTimeout.replica rt) :: tail ∧
      ∀ p, p ∈ tail ↔ p ∈ s.armed ∧
        ∀ h0, alLookup rt s.replica_timeouts = some h0 → p.1 ≠ h0) := by
  unfold Server.armReplicaTimeout at h
  dsimp only at h
  split at h
  · rename_i hreg
    cases h
    refine ⟨rfl, rfl, rfl, s.armed, rfl, ?_⟩
    intro p
    constructor
    · intro hp
      refine ⟨hp, ?_⟩
      intro h0 hx
      rw [hreg] at hx
      cases hx
    · intro hp
      exact hp.1
  · rename_i old hreg
    have hold : (old, ServerTimeout.replica rt) ∈ s.armed := (hWF.replicaArmed rt old).mp hreg
    have holdNe : s.nextHandle ≠ old := Nat.ne_of_gt (hWF.armedFresh _ hold)
    split at h
    · cases h
    · rename_i armed2 hct
      cases h
      have harm := clearTimeout_eq_some hct
      have harm2 : armed2 = (s.nextHandle, ServerTimeout.replica rt) ::
          s.armed.filter (fun q => q.1 != old) := by
        rw [harm, List.filter_cons_of_pos]
        simpa using holdNe
      refine ⟨rfl, rfl, rfl, s.armed.filter (fun q => q.1 != old), harm2, ?_⟩
      intro p
      rw [mem_filterHandle]
      constructor
      · rintro ⟨hp, hne⟩
        refine ⟨hp, ?_⟩
        intro h0 hx
        rw [hreg] at hx
        cases hx
        exact hne
      · rintro ⟨hp, hall⟩
        exact ⟨hp, hall old hreg⟩

/-- Replace semantics of arming, phrased on the timer registry and the
armed scheduler set. -/
theorem armReplicaTimeout_replace {s s' : Server} {rt : ReplicaTimeout} (hWF : WF s)
    (h : s.armReplicaTimeout rt = .ok s') :
    alLookup rt s'.replica_timeouts = some s.nextHandle ∧
    (∀ hd, (hd, ServerTimeout.replica rt) ∈ s'.armed ↔ hd = s.nextHandle) ∧
    (∀ h0, alLookup rt s.replica_timeouts = some h0 →
      h0 ∉ s'.armed.map (fun p => p.1)) ∧
    s'.nextHandle = s.nextHandle + 1 := by
  obtain ⟨hreg, hnh, hrec, tail, harm, htail⟩ := armReplicaTimeout_spec hWF h
  refine ⟨by rw [hreg, alLookup_alInsert_self], ?_, ?_, hnh⟩
  · intro hd
    rw [harm]
    constructor
    · intro hx
      rcases List.mem_cons.mp hx with hx | hx
      · cases hx
        rfl
      · obtain ⟨hx1, hx2⟩ := (htail _).mp hx
        have hlk := (hWF.replicaArmed rt hd).mpr hx1
        exact absurd rfl (hx2 hd hlk)
    · intro hx
      subst hx
      exact List.mem_cons_self _ _
  · intro h0 hlk hmem
    rcases List.mem_map.mp hmem with ⟨p, hp, hpe⟩
    rw [harm] at hp
    rcases List.mem_cons.mp hp with hx | hx
    · subst hx
      have hmem0 := (hWF.replicaArmed rt h0).mp hlk
      have hlt : h0 < s.nextHandle := hWF.armedFresh _ hmem0
      have hpe2 : s.nextHandle = h0 := hpe
      exact absurd hpe2.symm (Nat.ne_of_lt hlt)
    · exact (((htail _).mp hx).2 h0 hlk) hpe

/-- With no messages and no clear flag, `execute_actions` is exactly the
timeout-arming loop. -/
theorem execute_actions_arm_only {s : Server} {ts : List ReplicaTimeout} :
    s.execute_actions { Actions.empty with timeouts := ts } =
      Server.armReplicaTimeouts s ts := rfl

theorem newPeers_ne_selfPanic {peers : List (ServerId × PeerEnv)} :
    ∀ {s : Server}, Server.newPeers s peers ≠ .panic .assertSelfInPeers := by
  induction peers with
  | nil =>
    intro s h
    cases h
  | cons q rest ih =>
    intro s h
    obtain ⟨pid, pe⟩ := q
    unfold Server.newPeers at h
    dsimp only at h
    split at h
    · split at h
      · cases h
      · split at h
        · cases h
        · split at h
          · exact ih h
          · cases h
    · cases h

/-- A well-formed connection table holds at most `slabCapacity`
connections. -/
theorem WF.connLength {s : Server} (hWF : WF s) :
    s.connections.length ≤ slabCapacity := by
  have h1 : s.connections.length = (s.connections.map (fun p => p.1)).length :=
    (List.length_map _ _).symm
  have h2 : (s.connections.map (fun p => p.1)).toFinset.card =
      (s.connections.map (fun p => p.1)).length :=
    List.toFinset_card_of_nodup hWF.connNodup
  have h3 : (s.connections.map (fun p => p.1)).toFinset ⊆ Finset.Icc 1 slabCapacity := by
    intro x hx
    rw [List.mem_toFinset] at hx
    rcases List.mem_map.mp hx with ⟨p, hp, rfl⟩
    exact Finset.mem_Icc.mpr (hWF.connRange p hp)
  have h4 := Finset.card_le_card h3
  rw [h2, Nat.card_Icc] at h4
  omega

theorem drainFrames_kind_peer {rest : List (Frame × Actions)} :
    ∀ {s s' : Server} {token : Token} {ds : List Dispatch} {pid : ServerId}
      {readErr : Bool} {c : Connection},
      alLookup token s.connections = some c → c.kind = ConnectionKind.peer pid →
      s.drainFrames token rest readErr = .ok (s', ds) →
      ds = rest.map (fun q => Dispatch.peerMsg pid q.1) := by
  induction rest with
  | nil =>
    intro s s' token ds pid readErr c hc hk h
    unfold Server.drainFrames at h
    rw [hc] at h
    dsimp only at h
    split at h
    · cases h
    · cases h
      rfl
  | cons q rest ih =>
    intro s s' token ds pid readErr c hc hk h
    obtain ⟨f, a⟩ := q
    unfold Server.drainFrames at h
    rw [hc] at h
    dsimp only at h
    split at h
    · cases h
    · rename_i s1 d hhf
      obtain ⟨hd, hex⟩ := handleFrame_peer hc hk hhf
      subst hd
      split at h
      · cases h
      · rename_i s2 ds2 hdr
        cases h
        obtain ⟨c1, hc1, hk1⟩ := execute_actions_kind hc hex
        rw [ih hc1 (hk1.trans hk) hdr]
        rfl

theorem drainFrames_kind_client {rest : List (Frame × Actions)} :
    ∀ {s s' : Server} {token : Token} {ds : List Dispatch} {cid : ClientId}
      {readErr : Bool} {c : Connection},
      alLookup token s.connections = some c → c.kind = ConnectionKind.client cid →
      s.drainFrames token rest readErr = .ok (s', ds) →
      ds = rest.map (fun q => Dispatch.clientMsg cid q.1) := by
  induction rest with
  | nil =>
    intro s s' token ds cid readErr c hc hk h
    unfold Server.drainFrames at h
    rw [hc] at h
    dsimp only at h
    split at h
    · cases h
    · cases h
      rfl
  | cons q rest ih =>
    intro s s' token ds cid readErr c hc hk h
    obtain ⟨f, a⟩ := q
    unfold Server.drainFrames at h
    rw [hc] at h
    dsimp only at h
    split at h
    · cases h
    · rename_i s1 d hhf
      obtain ⟨hd, hex⟩ := handleFrame_client hc hk hhf
      subst hd
      split at h
      · cases h
      · rename_i s2 ds2 hdr
        cases h
        obtain ⟨c1, hc1, hk1⟩ := execute_actions_kind hc hex
        rw [ih hc1 (hk1.trans hk) hdr]
        rfl

/-! ### Concrete states used by the witnesses

`egS0` is the state constructed by `Server::new` for local id 0 with the
single configured peer 1; `egS1` additionally accepted one inbound
connection at token 2 (still Unknown). -/

/-- A default server used as fallback in concrete-state definitions. -/
def emptyServer : Server :=
  { id := 0, connections := [], peer_tokens := [], client_tokens := [],
    replica_timeouts := [], reconnection_timeouts := [], armed := [], nextHandle := 0,
    registered := [] }

def egPeerEnv : PeerEnv := { connectOk := true, sendOk := true }

def egNewEnv : NewEnv := { loopOk := true, bindOk := true, registerOk := true }

def egS0 : Server :=
  match Server.new 0 [(1, egPeerEnv)] egNewEnv with
  | .ok s => s
  | _ => emptyServer

def egAcceptEnv : ReadyEnv :=
  { isErr := false, isHup := false, isWritable := false, isReadable := true,
    writeOk := true, flushed := 0, acceptOut := .asome true, reads := [],
    readErr := false }

def egS1 : Server :=
  match egS0.ready LISTENER egAcceptEnv with
  | .ok s => s
  | _ => emptyServer

theorem egS0_reachable : Reachable egS0 :=
  @Reachable.base 0 [(1, egPeerEnv)] egNewEnv egS0 rfl

theorem egS1_reachable : Reachable egS1 :=
  @Reachable.ready egS0 LISTENER egAcceptEnv egS1 egS0_reachable rfl

/-- The state after the Server preamble of peer 1 arrives on token 2. -/
def egS2 : Server :=
  match egS1.handleFrame 2 ⟨PreambleId.server 1, 0⟩ Actions.empty with
  | .ok sd => sd.1
  | _ => emptyServer

/-! ### The claims -/

/-- C1: in every reachable state, when a frame on an Unknown connection
at token `token` decodes as a Server preamble naming `pid` and the
reactor processes it successfully, afterwards the connection kind is
`Peer pid`, `peer_tokens` maps `pid` to `token` and exactly one entry
points at `token`, the previously mapped token is removed from the
connection table and deregistered from the multiplexer, and any Reconnect
timer registered for the previous token is cancelled and removed from the
registry. -/
theorem c1_preamble_promotion {s s' : Server} {token : Token} {c : Connection}
    {f : Frame} {acts : Actions} {pid : ServerId} {d : Dispatch}
    (hreach : Reachable s)
    (hc : alLookup token s.connections = some c)
    (hkind : c.kind = ConnectionKind.unknown)
    (hpre : f.pre = PreambleId.server pid)
    (h : s.handleFrame token f acts = .ok (s', d)) :
    (∃ c', alLookup token s'.connections = some c' ∧
      c'.kind = ConnectionKind.peer pid) ∧
    alLookup pid s'.peer_tokens = some token ∧
    (s'.peer_tokens.filter (fun q => q.2 == token)).length = 1 ∧
    (∀ q, alLookup q s'.peer_tokens = some token → q = pid) ∧
    (∀ prev0, alLookup pid s.peer_tokens = some prev0 →
      alLookup prev0 s'.connections = none ∧
      prev0 ∉ s'.registered ∧
      alLookup prev0 s'.reconnection_timeouts = none ∧
      ∀ hd, alLookup prev0 s.reconnection_timeouts = some hd →
        hd ∉ s'.armed.map (fun p => p.1)) := by
  have hWF := hreach.wf
  unfold Server.handleFrame at h
  rw [hc] at h
  dsimp only at h
  rw [hkind] at h
  dsimp only at h
  rw [hpre] at h
  dsimp only at h
  split at h
  · cases h
  · rename_i prev hprev
    obtain ⟨cp, hcp, hkp⟩ := hWF.peerConn pid prev hprev
    have hPrevTok : prev ≠ token := by
      intro he
      subst he
      rw [hcp] at hc
      cases hc
      rw [hkind] at hkp
      cases hkp
    have hTokPrev : token ≠ prev := fun he => hPrevTok he.symm
    have hconnNew : alLookup token (alErase prev
        (alInsert token { c with kind := ConnectionKind.peer pid } s.connections)) =
        some { c with kind := ConnectionKind.peer pid } := by
      rw [alLookup_alErase_ne hTokPrev, alLookup_alInsert_self]
    have hcount : ((alInsert pid token s.peer_tokens).filter
        (fun q => q.2 == token)).length = 1 := by
      rw [alInsert, List.filter_cons_of_pos (by simp)]
      have htail : (alErase pid s.peer_tokens).filter (fun q => q.2 == token) = [] := by
        rw [List.filter_eq_nil_iff]
        intro q hq hqt
        obtain ⟨hq1, hq2⟩ := mem_alErase.mp hq
        have hqe : q.2 = token := by simpa using hqt
        have hlk : alLookup q.1 s.peer_tokens = some token := by
          rw [← hqe]
          exact alLookup_of_mem_nodup hWF.peerNodup hq1
        obtain ⟨c0, hc0, hk0⟩ := hWF.peerConn q.1 token hlk
        rw [hc0] at hc
        cases hc
        rw [hkind] at hk0
        cases hk0
      rw [htail]
      rfl
    have huniq : ∀ q, alLookup q (alInsert pid token s.peer_tokens) = some token →
        q = pid := by
      intro q hq
      by_cases he : q = pid
      · exact he
      · rw [alLookup_alInsert_ne he _ _] at hq
        obtain ⟨c0, hc0, hk0⟩ := hWF.peerConn q token hq
        rw [hc0] at hc
        cases hc
        rw [hkind] at hk0
        cases hk0
    split at h
    · cases h
    · rename_i cx hcx
      split at h
      · -- no Reconnect timer for the previous token
        rename_i hrecNone
        cases h
        refine ⟨⟨_, hconnNew, rfl⟩, alLookup_alInsert_self .., hcount, huniq, ?_⟩
        intro prev0 hprev0
        rw [hprev] at hprev0
        cases hprev0
        refine ⟨alLookup_alErase_self .., not_mem_regErase, hrecNone, ?_⟩
        intro hd hx
        rw [hrecNone] at hx
        cases hx
      · -- cancel and remove the Reconnect timer of the previous token
        rename_i hd0 hrec
        split at h
        · cases h
        · rename_i armed' hct
          cases h
          have harm := clearTimeout_eq_some hct
          refine ⟨⟨_, hconnNew, rfl⟩, alLookup_alInsert_self .., hcount, huniq, ?_⟩
          intro prev0 hprev0
          rw [hprev] at hprev0
          cases hprev0
          refine ⟨alLookup_alErase_self .., not_mem_regErase,
            alLookup_alErase_self .., ?_⟩
          intro hd hx
          rw [hrec] at hx
          cases hx
          intro hmem
          rcases List.mem_map.mp hmem with ⟨p, hp, hpe⟩
          rw [harm] at hp
          exact absurd hpe (mem_filterHandle.mp hp).2

/-- Witness for C1 at a concrete reachable state: `egS1` holds the
configured peer 1 at token 1 and an Unknown inbound connection at token
2; the Server preamble of peer 1 arriving on token 2 promotes it. -/
theorem c1_preamble_promotion_witness :
    (∃ c', alLookup 2 egS2.connections = some c' ∧
      c'.kind = ConnectionKind.peer 1) ∧
    alLookup 1 egS2.peer_tokens = some 2 ∧
    (egS2.peer_tokens.filter (fun q => q.2 == 2)).length = 1 ∧
    (∀ q, alLookup q egS2.peer_tokens = some 2 → q = 1) ∧
    (∀ prev0, alLookup 1 egS1.peer_tokens = some prev0 →
      alLookup prev0 egS2.connections = none ∧
      prev0 ∉ egS2.registered ∧
      alLookup prev0 egS2.reconnection_timeouts = none ∧
      ∀ hd, alLookup prev0 egS1.reconnection_timeouts = some hd →
        hd ∉ egS2.armed.map (fun p => p.1)) :=
  @c1_preamble_promotion egS1 egS2 2
    { kind := ConnectionKind.unknown, token := 2, outbox := [], backoff := 0 }
    { pre := PreambleId.server 1, body := 0 } Actions.empty 1 (Dispatch.promotedPeer 1)
    egS1_reachable rfl rfl rfl rfl

/-- The state after a Client preamble with id 7 arrives on the Unknown
connection at token 2. -/
def egS2c : Server :=
  match egS1.handleFrame 2 { pre := PreambleId.client 7, body := 0 } Actions.empty with
  | .ok sd => sd.1
  | _ => emptyServer

/-- C2 (code bug): a Client preamble on an Unknown connection sets the
connection kind to Client(7), but the reactor never records the mapping
7 to token 2 in `client_tokens` (no insertion into `client_tokens`
appears anywhere in `server.rs`), so a subsequent reply to client 7 in
`execute_actions` finds no connection and is silently dropped. -/
theorem c2_client_preamble_unindexed :
    egS1.handleFrame 2 { pre := PreambleId.client 7, body := 0 } Actions.empty =
      .ok (egS2c, Dispatch.promotedClient 7) ∧
    (∃ c', alLookup 2 egS2c.connections = some c' ∧
      c'.kind = ConnectionKind.client 7) ∧
    egS1.client_tokens = [] ∧
    egS2c.client_tokens = [] ∧
    alLookup 7 egS2c.client_tokens = none ∧
    Server.sendClientMessages egS2c [(7, 99)] = egS2c :=
  ⟨rfl, ⟨{ kind := ConnectionKind.client 7, token := 2, outbox := [], backoff := 0 },
    rfl, rfl⟩, rfl, rfl, rfl, rfl⟩

/-- C3 (code bug): every malformed connection preamble on an Unknown
connection aborts the process instead of closing the connection: an
unknown union discriminant panics at `which().unwrap()`, a Client
variant carrying a read error reaches the `unimplemented!()` wildcard
arm, and an invalid client id panics at `ClientId::from_bytes(..).unwrap()`. -/
theorem c3_malformed_preamble_aborts :
    egS1.handleFrame 2 { pre := PreambleId.notInSchema, body := 0 } Actions.empty =
      .error Panic.unwrapWhich ∧
    egS1.handleFrame 2 { pre := PreambleId.clientErr, body := 0 } Actions.empty =
      .error Panic.unimplementedPreamble ∧
    egS1.handleFrame 2 { pre := PreambleId.clientBad, body := 0 } Actions.empty =
      .error Panic.unwrapClientId :=
  ⟨rfl, rfl, rfl⟩

/-- C9: a Server preamble naming a ServerId with no `peer_tokens` entry
makes the reactor panic at `expect("peer token not found")`; with an
entry whose token holds no connection, it panics at
`expect("peer connection not found")`.  The unknown peer is neither
accepted nor dropped: the process aborts. -/
theorem c9_unknown_peer_aborts {s : Server} {token : Token} {c : Connection} {f : Frame}
    {acts : Actions} {pid : ServerId}
    (hc : alLookup token s.connections = some c)
    (hkind : c.kind = ConnectionKind.unknown)
    (hpre : f.pre = PreambleId.server pid) :
    (alLookup pid s.peer_tokens = none →
      s.handleFrame token f acts = .error Panic.expectPeerToken) ∧
    (∀ prev, alLookup pid s.peer_tokens = some prev → prev ≠ token →
      alLookup prev s.connections = none →
      s.handleFrame token f acts = .error Panic.expectPeerConnection) := by
  constructor
  · intro hnone
    unfold Server.handleFrame
    rw [hc]
    dsimp only
    rw [hkind]
    dsimp only
    rw [hpre]
    dsimp only
    rw [hnone]
  · intro prev hprev hne hpc
    unfold Server.handleFrame
    rw [hc]
    dsimp only
    rw [hkind]
    dsimp only
    rw [hpre]
    dsimp only
    rw [hprev]
    dsimp only
    rw [alLookup_alInsert_ne hne, hpc]

/-- A fresh Unknown connection at token `t`. -/
def unknownConn (t : Token) : Connection :=
  { kind := ConnectionKind.unknown, token := t, outbox := [], backoff := 0 }

/-- A state whose `peer_tokens` names token 5 for peer 1 while no
connection lives at token 5. -/
def egDangling : Server :=
  { id := 0, connections := [(2, unknownConn 2)],
    peer_tokens := [(1, 5)], client_tokens := [], replica_timeouts := [],
    reconnection_timeouts := [], armed := [], nextHandle := 0, registered := [0, 2] }

theorem c9_unknown_peer_aborts_witness :
    egS1.handleFrame 2 { pre := PreambleId.server 9, body := 0 } Actions.empty =
      .error Panic.expectPeerToken ∧
    egDangling.handleFrame 2 { pre := PreambleId.server 1, body := 0 } Actions.empty =
      .error Panic.expectPeerConnection :=
  ⟨(@c9_unknown_peer_aborts egS1 2
      { kind := ConnectionKind.unknown, token := 2, outbox := [], backoff := 0 }
      { pre := PreambleId.server 9, body := 0 } Actions.empty 9 rfl rfl rfl).1 rfl,
   (@c9_unknown_peer_aborts egDangling 2
      { kind := ConnectionKind.unknown, token := 2, outbox := [], backoff := 0 }
      { pre := PreambleId.server 1, body := 0 } Actions.empty 1 rfl rfl rfl).2 5 rfl
      (by decide) rfl⟩

/-- C10: within one readable drain, the connection classification is
re-read before each frame, so frames in the same batch after a successful
preamble are dispatched under the new Peer or Client classification (as
`apply_peer_message` or `apply_client_message` events), never re-parsed
as preambles. -/
theorem c10_drain_reclassifies {s s' : Server} {token : Token} {c : Connection}
    {f0 : Frame} {a0 : Actions} {rest : List (Frame × Actions)} {ds : List Dispatch}
    (hc : alLookup token s.connections = some c)
    (hkind : c.kind = ConnectionKind.unknown) :
    (∀ pid, f0.pre = PreambleId.server pid →
      s.drainFrames token ((f0, a0) :: rest) false = .ok (s', ds) →
      ds = Dispatch.promotedPeer pid ::
        rest.map (fun q => Dispatch.peerMsg pid q.1)) ∧
    (∀ cid, f0.pre = PreambleId.client cid →
      s.drainFrames token ((f0, a0) :: rest) false = .ok (s', ds) →
      ds = Dispatch.promotedClient cid ::
        rest.map (fun q => Dispatch.clientMsg cid q.1)) := by
  constructor
  · intro pid hpre h
    unfold Server.drainFrames at h
    rw [hc] at h
    dsimp only at h
    split at h
    · cases h
    · rename_i s1 d hhf
      obtain ⟨hd, hkindNew⟩ := handleFrame_promote_server hc hkind hpre hhf
      subst hd
      split at h
      · cases h
      · rename_i s2 ds2 hdr
        cases h
        cases hlk : alLookup token s1.connections with
        | none =>
          rw [drainFrames_no_conn hlk] at hdr
          cases hdr
        | some c1 =>
          rw [drainFrames_kind_peer hlk (hkindNew c1 hlk) hdr]
  · intro cid hpre h
    unfold Server.drainFrames at h
    rw [hc] at h
    dsimp only at h
    split at h
    · cases h
    · rename_i s1 d hhf
      obtain ⟨hd, hlk⟩ := handleFrame_promote_client hc hkind hpre hhf
      subst hd
      split at h
      · cases h
      · rename_i s2 ds2 hdr
        cases h
        rw [drainFrames_kind_client hlk rfl hdr]

/-- A second frame in the same batch; it would panic if re-parsed as a
preamble, but is dispatched under the promoted classification. -/
def egFrameRaw : Frame := { pre := PreambleId.notInSchema, body := 5 }

def egDrainPeerOut : Server × List Dispatch :=
  match egS1.drainFrames 2
      [({ pre := PreambleId.server 1, body := 0 }, Actions.empty),
       (egFrameRaw, Actions.empty)] false with
  | .ok sd => sd
  | _ => (emptyServer, [])

def egDrainClientOut : Server × List Dispatch :=
  match egS1.drainFrames 2
      [({ pre := PreambleId.client 7, body := 0 }, Actions.empty),
       (egFrameRaw, Actions.empty)] false with
  | .ok sd => sd
  | _ => (emptyServer, [])

theorem c10_drain_reclassifies_witness :
    egDrainPeerOut.2 = [Dispatch.promotedPeer 1, Dispatch.peerMsg 1 egFrameRaw] ∧
    egDrainClientOut.2 = [Dispatch.promotedClient 7, Dispatch.clientMsg 7 egFrameRaw] :=
  ⟨(@c10_drain_reclassifies egS1 egDrainPeerOut.1 2 (unknownConn 2)
      { pre := PreambleId.server 1, body := 0 } Actions.empty
      [(egFrameRaw, Actions.empty)] egDrainPeerOut.2 rfl rfl).1 1 rfl rfl,
   (@c10_drain_reclassifies egS1 egDrainClientOut.1 2 (unknownConn 2)
      { pre := PreambleId.client 7, body := 0 } Actions.empty
      [(egFrameRaw, Actions.empty)] egDrainClientOut.2 rfl rfl).2 7 rfl rfl⟩

/-- C8: `reset_connection` acts by the connection kind.  A Peer
connection stays in the table and a fresh Reconnect timer handle is
recorded under its token, asserting none was registered; a Client
connection is removed together with its `client_tokens` entry; an
Unknown connection is removed with no index touched. -/
theorem c8_reset_by_kind {s : Server} {token : Token} {c : Connection}
    (hc : alLookup token s.connections = some c) :
    (∀ pid, c.kind = ConnectionKind.peer pid →
      alLookup token s.reconnection_timeouts = none →
      ∃ s', s.reset_connection token = .ok s' ∧
        alLookup token s'.reconnection_timeouts = some s.nextHandle ∧
        (s.nextHandle, ServerTimeout.reconnect token) ∈ s'.armed ∧
        (∃ c', alLookup token s'.connections = some c' ∧ c'.kind = c.kind) ∧
        s'.peer_tokens = s.peer_tokens ∧ s'.client_tokens = s.client_tokens) ∧
    (∀ pid, c.kind = ConnectionKind.peer pid →
      ∀ hd, alLookup token s.reconnection_timeouts = some hd →
      s.reset_connection token = .error Panic.assertReconnectRegistered) ∧
    (∀ cid, c.kind = ConnectionKind.client cid →
      s.reset_connection token =
        .ok { s with connections := alErase token s.connections,
                     client_tokens := alErase cid s.client_tokens }) ∧
    (c.kind = ConnectionKind.unknown →
      s.reset_connection token =
        .ok { s with connections := alErase token s.connections }) := by
  refine ⟨?_, ?_, ?_, ?_⟩
  · intro pid hkind hrec
    unfold Server.reset_connection
    rw [hc]
    dsimp only
    rw [hkind]
    dsimp only
    rw [hrec]
    dsimp only
    refine ⟨_, rfl, alLookup_alInsert_self .., List.mem_cons_self _ _, ?_, rfl, rfl⟩
    exact ⟨_, alLookup_alInsert_self .., rfl⟩
  · intro pid hkind hd hrec
    unfold Server.reset_connection
    rw [hc]
    dsimp only
    rw [hkind]
    dsimp only
    rw [hrec]
  · intro cid hkind
    unfold Server.reset_connection
    rw [hc]
    dsimp only
    rw [hkind]
  · intro hkind
    unfold Server.reset_connection
    rw [hc]
    dsimp only
    rw [hkind]

/-- A state with one Client(7) connection at token 3, indexed in
`client_tokens`. -/
def egClientState : Server :=
  { id := 0,
    connections := [(3, { kind := ConnectionKind.client 7, token := 3, outbox := [],
                          backoff := 0 })],
    peer_tokens := [], client_tokens := [(7, 3)], replica_timeouts := [],
    reconnection_timeouts := [], armed := [], nextHandle := 0, registered := [0, 3] }

/-- A state with a disconnected Peer(1) connection at token 1 whose
Reconnect timer is already armed. -/
def egPeerDisc : Server :=
  { id := 0,
    connections := [(1, { kind := ConnectionKind.peer 1, token := 1, outbox := [],
                          backoff := 1 })],
    peer_tokens := [(1, 1)], client_tokens := [], replica_timeouts := [],
    reconnection_timeouts := [(1, 0)], armed := [(0, ServerTimeout.reconnect 1)],
    nextHandle := 1, registered := [0] }

theorem c8_reset_by_kind_witness :
    (∃ s', egS0.reset_connection 1 = .ok s' ∧
      alLookup 1 s'.reconnection_timeouts = some egS0.nextHandle ∧
      (egS0.nextHandle, ServerTimeout.reconnect 1) ∈ s'.armed ∧
      (∃ c', alLookup 1 s'.connections = some c' ∧
        c'.kind = ConnectionKind.peer 1) ∧
      s'.peer_tokens = egS0.peer_tokens ∧ s'.client_tokens = egS0.client_tokens) ∧
    egPeerDisc.reset_connection 1 = .error Panic.assertReconnectRegistered ∧
    egClientState.reset_connection 3 =
      .ok { egClientState with connections := alErase 3 egClientState.connections,
                               client_tokens := alErase 7 egClientState.client_tokens } ∧
    egS1.reset_connection 2 =
      .ok { egS1 with connections := alErase 2 egS1.connections } :=
  ⟨(@c8_reset_by_kind egS0 1
      { kind := ConnectionKind.peer 1, token := 1, outbox := [serverPreambleMsg 0],
        backoff := 0 } rfl).1 1 rfl rfl,
   (@c8_reset_by_kind egPeerDisc 1
      { kind := ConnectionKind.peer 1, token := 1, outbox := [], backoff := 1 }
      rfl).2.1 1 rfl 0 rfl,
   (@c8_reset_by_kind egClientState 3
      { kind := ConnectionKind.client 7, token := 3, outbox := [], backoff := 0 }
      rfl).2.2.1 7 rfl,
   (@c8_reset_by_kind egS1 2 (unknownConn 2) rfl).2.2.2 rfl⟩

/-- C7: construction with a peer map containing the local ServerId
aborts at the `assert!` before anything else runs; for every peer map
not containing the local id that assertion passes, whatever else
construction does. -/
theorem c7_self_in_peers (id : ServerId) (peers : List (ServerId × PeerEnv))
    (env : NewEnv) :
    ((peers.map (fun p => p.1)).contains id = true →
      Server.new id peers env = .panic Panic.assertSelfInPeers) ∧
    ((peers.map (fun p => p.1)).contains id = false →
      Server.new id peers env ≠ .panic Panic.assertSelfInPeers) := by
  constructor
  · intro hcon
    unfold Server.new
    rw [if_pos hcon]
  · intro hcon
    unfold Server.new
    rw [if_neg (by rw [hcon]; exact Bool.false_ne_true)]
    split
    · split
      · split
        · exact newPeers_ne_selfPanic
        · intro hx
          cases hx
      · intro hx
        cases hx
    · intro hx
      cases hx

theorem c7_self_in_peers_witness :
    Server.new 0 [(0, egPeerEnv)] egNewEnv = .panic Panic.assertSelfInPeers ∧
    Server.new 0 [(1, egPeerEnv)] egNewEnv ≠ .panic Panic.assertSelfInPeers :=
  ⟨(c7_self_in_peers 0 [(0, egPeerEnv)] egNewEnv).1 rfl,
   (c7_self_in_peers 0 [(1, egPeerEnv)] egNewEnv).2 rfl⟩

/-- C6: arming replica timeouts in `execute_actions` has replace
semantics.  After arming `rt` once, the registry holds exactly the newly
scheduled handle for `rt`, exactly one timer with identity `rt` is armed,
and any previously held handle is cancelled.  Arming `rt` twice in one
bundle leaves exactly one armed timer with identity `rt`: the second one,
with the first one cancelled. -/
theorem c6_timer_replace :
    (∀ (s s' : Server) (rt : ReplicaTimeout), Reachable s →
      s.execute_actions { Actions.empty with timeouts := [rt] } = .ok s' →
      alLookup rt s'.replica_timeouts = some s.nextHandle ∧
      (∀ hd, (hd, ServerTimeout.replica rt) ∈ s'.armed ↔ hd = s.nextHandle) ∧
      (∀ h0, alLookup rt s.replica_timeouts = some h0 →
        h0 ∉ s'.armed.map (fun p => p.1))) ∧
    (∀ (s s' : Server) (rt : ReplicaTimeout), Reachable s →
      s.execute_actions { Actions.empty with timeouts := [rt, rt] } = .ok s' →
      alLookup rt s'.replica_timeouts = some (s.nextHandle + 1) ∧
      (∀ hd, (hd, ServerTimeout.replica rt) ∈ s'.armed ↔ hd = s.nextHandle + 1) ∧
      s.nextHandle ∉ s'.armed.map (fun p => p.1)) := by
  constructor
  · intro s s' rt hreach h
    rw [execute_actions_arm_only, Server.armReplicaTimeouts] at h
    split at h
    · cases h
    · rename_i s1 h1
      rw [Server.armReplicaTimeouts] at h
      cases h
      obtain ⟨ha, hb, hcancel, hn⟩ := armReplicaTimeout_replace hreach.wf h1
      exact ⟨ha, hb, hcancel⟩
  · intro s s' rt hreach h
    rw [execute_actions_arm_only, Server.armReplicaTimeouts] at h
    split at h
    · cases h
    · rename_i s1 h1
      rw [Server.armReplicaTimeouts] at h
      split at h
      · cases h
      · rename_i s2 h2
        rw [Server.armReplicaTimeouts] at h
        cases h
        have hWF1 := hreach.wf.armReplicaTimeout h1
        obtain ⟨ha1, hb1, hc1, hn1⟩ := armReplicaTimeout_replace hreach.wf h1
        obtain ⟨ha2, hb2, hc2, hn2⟩ := armReplicaTimeout_replace hWF1 h2
        rw [hn1] at ha2 hb2
        exact ⟨ha2, hb2, hc2 s.nextHandle ha1⟩

def egArm1 : Server :=
  match egS1.execute_actions { Actions.empty with timeouts := [5] } with
  | .ok s => s
  | _ => emptyServer

def egArm2 : Server :=
  match egS1.execute_actions { Actions.empty with timeouts := [5, 5] } with
  | .ok s => s
  | _ => emptyServer

theorem c6_timer_replace_witness :
    (alLookup 5 egArm1.replica_timeouts = some egS1.nextHandle ∧
      (∀ hd, (hd, ServerTimeout.replica 5) ∈ egArm1.armed ↔ hd = egS1.nextHandle) ∧
      (∀ h0, alLookup 5 egS1.replica_timeouts = some h0 →
        h0 ∉ egArm1.armed.map (fun p => p.1))) ∧
    (alLookup 5 egArm2.replica_timeouts = some (egS1.nextHandle + 1) ∧
      (∀ hd, (hd, ServerTimeout.replica 5) ∈ egArm2.armed ↔ hd = egS1.nextHandle + 1) ∧
      egS1.nextHandle ∉ egArm2.armed.map (fun p => p.1)) :=
  ⟨c6_timer_replace.1 egS1 egArm1 5 egS1_reachable rfl,
   c6_timer_replace.2 egS1 egArm2 5 egS1_reachable rfl⟩

/-- A readiness event whose readable drain fails immediately. -/
def egReadErrEnv : ReadyEnv :=
  { isErr := false, isHup := false, isWritable := false, isReadable := true,
    writeOk := true, flushed := 0, acceptOut := AcceptOut.aerr, reads := [],
    readErr := true }

/-- C4 counterexample: a failure of the connection readable operation on
the established peer connection at token 1 is not recovered by
`reset_connection`; the reactor unwraps it and the process aborts. -/
theorem c4_counterexample :
    egS1.ready 1 egReadErrEnv = .error Panic.unwrapReadable := rfl

/-- C4 (amended): error and hangup readiness events and writable
failures on a non-listener token are recovered per connection by
`reset_connection`; error and hangup events on the listener token abort;
but a failure of the readable operation is unwrapped and aborts the
process. -/
theorem c4_io_fault_recovery {s : Server} {token : Token} {env : ReadyEnv} :
    (env.isErr = true → token ≠ LISTENER →
      s.ready token env = s.reset_connection token) ∧
    (env.isErr = true → token = LISTENER →
      s.ready token env = .error Panic.assertListenerError) ∧
    (env.isErr = false → env.isHup = true → token ≠ LISTENER →
      s.ready token env = s.reset_connection token) ∧
    (env.isErr = false → env.isHup = true → token = LISTENER →
      s.ready token env = .error Panic.assertListenerHup) ∧
    (env.isErr = false → env.isHup = false → env.isWritable = true →
      token ≠ LISTENER → env.writeOk = false →
      s.ready token env = s.reset_connection token) ∧
    (env.isErr = false → env.isHup = false → env.isWritable = false →
      env.isReadable = true → token ≠ LISTENER → env.reads = [] →
      env.readErr = true → (alLookup token s.connections).isSome →
      s.ready token env = .error Panic.unwrapReadable) := by
  refine ⟨?_, ?_, ?_, ?_, ?_, ?_⟩
  · intro h1 ht
    unfold Server.ready
    rw [if_pos h1, if_neg ht]
  · intro h1 ht
    unfold Server.ready
    rw [if_pos h1, if_pos ht]
  · intro h1 h2 ht
    unfold Server.ready
    rw [if_neg (by rw [h1]; exact Bool.false_ne_true), if_pos h2, if_neg ht]
  · intro h1 h2 ht
    unfold Server.ready
    rw [if_neg (by rw [h1]; exact Bool.false_ne_true), if_pos h2, if_pos ht]
  · intro h1 h2 h3 ht h5
    unfold Server.ready
    rw [if_neg (by rw [h1]; exact Bool.false_ne_true),
      if_neg (by rw [h2]; exact Bool.false_ne_true), if_pos h3, if_neg ht]
    cases hlk : alLookup token s.connections with
    | none =>
      unfold Server.reset_connection
      rw [hlk]
    | some c =>
      dsimp only
      rw [if_neg (by rw [h5]; exact Bool.false_ne_true)]
      cases hres : s.reset_connection token with
      | error e => rfl
      | ok s1 => rfl
  · intro h1 h2 h3 h4 ht hreads hrerr hlk
    unfold Server.ready
    rw [if_neg (by rw [h1]; exact Bool.false_ne_true),
      if_neg (by rw [h2]; exact Bool.false_ne_true),
      if_neg (by rw [h3]; exact Bool.false_ne_true)]
    dsimp only
    rw [if_pos h4, if_neg ht, hreads, hrerr]
    rw [Option.isSome_iff_exists] at hlk
    obtain ⟨c, hc⟩ := hlk
    unfold Server.drainFrames
    rw [hc]
    rfl

/-- A readiness event carrying an error condition. -/
def egErrEnv : ReadyEnv :=
  { isErr := true, isHup := false, isWritable := false, isReadable := false,
    writeOk := true, flushed := 0, acceptOut := AcceptOut.aerr, reads := [],
    readErr := false }

/-- A readiness event carrying a hangup condition. -/
def egHupEnv : ReadyEnv :=
  { isErr := false, isHup := true, isWritable := false, isReadable := false,
    writeOk := true, flushed := 0, acceptOut := AcceptOut.aerr, reads := [],
    readErr := false }

/-- A writable readiness event whose write fails. -/
def egWriteFailEnv : ReadyEnv :=
  { isErr := false, isHup := false, isWritable := true, isReadable := false,
    writeOk := false, flushed := 0, acceptOut := AcceptOut.aerr, reads := [],
    readErr := false }

theorem c4_io_fault_recovery_witness :
    egS1.ready 1 egErrEnv = egS1.reset_connection 1 ∧
    egS1.ready LISTENER egErrEnv = .error Panic.assertListenerError ∧
    egS1.ready 1 egHupEnv = egS1.reset_connection 1 ∧
    egS1.ready LISTENER egHupEnv = .error Panic.assertListenerHup ∧
    egS1.ready 1 egWriteFailEnv = egS1.reset_connection 1 ∧
    egS1.ready 1 egReadErrEnv = .error Panic.unwrapReadable :=
  ⟨(@c4_io_fault_recovery egS1 1 egErrEnv).1 rfl (by decide),
   (@c4_io_fault_recovery egS1 LISTENER egErrEnv).2.1 rfl rfl,
   (@c4_io_fault_recovery egS1 1 egHupEnv).2.2.1 rfl rfl (by decide),
   (@c4_io_fault_recovery egS1 LISTENER egHupEnv).2.2.2.1 rfl rfl rfl,
   (@c4_io_fault_recovery egS1 1 egWriteFailEnv).2.2.2.2.1 rfl rfl rfl (by decide) rfl,
   (@c4_io_fault_recovery egS1 1 egReadErrEnv).2.2.2.2.2 rfl rfl rfl rfl (by decide)
     rfl rfl (by decide)⟩

/-- A table already holding 128 connections at tokens 1 through 128. -/
def egFull128 : Server :=
  { id := 0,
    connections := (List.range 128).map (fun i => (i + 1, unknownConn (i + 1))),
    peer_tokens := [], client_tokens := [], replica_timeouts := [],
    reconnection_timeouts := [], armed := [], nextHandle := 0, registered := [0] }

/-- The table after accepting one more connection: 129 entries. -/
def egFull129 : Server :=
  match egFull128.ready LISTENER egAcceptEnv with
  | .ok s => s
  | _ => emptyServer

/-- C5 counterexample: with 128 connections in the table, accepting
another inbound connection still succeeds — the slab has capacity 129
(`Slab::new_starting_at(Token(1), 129)`), not 128, and the listener
lives outside the table at reserved token 0. -/
theorem c5_counterexample :
    egFull128.connections.length = 128 ∧
    egFull128.ready LISTENER egAcceptEnv = .ok egFull129 ∧
    egFull129.connections.length = 129 ∧
    alLookup 129 egFull129.connections = some (unknownConn 129) :=
  ⟨rfl, rfl, rfl, rfl⟩

/-- C5 (amended): the connection table holds at most 129 connections
(tokens 1 through 129; token 0 is reserved for the listener, outside the
table).  Inserting beyond that capacity fails with
`ConnectionLimitReached`: at startup, inserting a configured peer into a
full table surfaces the error from construction; on accept the error is
logged, the new socket dropped, and the state left undisturbed. -/
theorem c5_connection_capacity :
    (∀ s : Server, Reachable s → s.connections.length ≤ slabCapacity) ∧
    (∀ (s : Server) (pid : ServerId) (pe : PeerEnv) (rest : List (ServerId × PeerEnv)),
      slabFreeToken s.connections = none → pe.connectOk = true →
      Server.newPeers s ((pid, pe) :: rest) = .err RaftError.connectionLimitReached) ∧
    (∀ (s : Server) (env : ReadyEnv) (rOk : Bool),
      env.isErr = false → env.isHup = false → env.isWritable = false →
      env.isReadable = true → env.acceptOut = AcceptOut.asome rOk →
      slabFreeToken s.connections = none →
      s.ready LISTENER env = .ok s) := by
  refine ⟨?_, ?_, ?_⟩
  · intro s hreach
    exact hreach.wf.connLength
  · intro s pid pe rest hfull hconn
    unfold Server.newPeers
    dsimp only
    rw [if_pos hconn, hfull]
  · intro s env rOk h1 h2 h3 h4 hacc hfull
    unfold Server.ready
    rw [if_neg (by rw [h1]; exact Bool.false_ne_true),
      if_neg (by rw [h2]; exact Bool.false_ne_true),
      if_neg (by rw [h3]; exact Bool.false_ne_true)]
    dsimp only
    rw [if_pos h4, if_pos rfl]
    unfold Server.acceptStep
    rw [hacc]
    dsimp only
    rw [hfull]

theorem c5_connection_capacity_witness :
    egS1.connections.length ≤ slabCapacity ∧
    Server.newPeers egFull129 [(7, egPeerEnv)] = .err RaftError.connectionLimitReached ∧
    egFull129.ready LISTENER egAcceptEnv = .ok egFull129 :=
  ⟨c5_connection_capacity.1 egS1 egS1_reachable,
   c5_connection_capacity.2.1 egFull129 7 egPeerEnv [] rfl rfl,
   c5_connection_capacity.2.2 egFull129 egAcceptEnv true rfl rfl rfl rfl rfl rfl⟩
